import Mathlib

/-!
Verification of the tick-level backtesting core of pyalgotrade (fork):
shallow embedding of `pyalgotrade/tick.py`, `pyalgotrade/tickfeed/memtf.py`,
`pyalgotrade/tickbroker/fillstrategy.py` and
`pyalgotrade/tickbroker/backtesting.py`, with theorems about the
data model, the in-memory tick feed, the default fill strategy and the
backtesting broker.

Monetary amounts, prices and quantities are embedded as rationals,
datetimes as naturals (feed) or day/second pairs (broker).  Fallible
Python code is embedded with `Except PyErr`.
-/

/-- Kinds of Python runtime errors that the embedded code can raise. -/
inductive PyErr
  | typeError (msg : String)
  | attributeError (msg : String)
  | keyError (key : String)
  | assertionError
  | valueError (msg : String)
  | exceptionRaised (msg : String)
deriving DecidableEq, Repr

/-- Python 3 `round` to an integer: round half to even (banker's rounding). -/
def pyRound (q : ℚ) : ℤ :=
  let fl := ⌊q⌋
  let fr := q - fl
  if fr < 1/2 then fl
  else if 1/2 < fr then fl + 1
  else if fl % 2 = 0 then fl else fl + 1

/-! ## `pyalgotrade/tick.py` : `BasicTick`

`BasicTick` declares `__slots__ = ('__dateTime', '__bid', '__ask')`.
Class-private names are mangled by CPython, both in the slot declarations
and at every attribute access, so the slot descriptors are
`_BasicTick__dateTime`, `_BasicTick__bid`, `_BasicTick__ask`.
The base class `Tick` declares no `__slots__`, so `BasicTick` instances
still carry a `__dict__`: assigning a name with no slot descriptor
succeeds and stores into the instance dict, while assigning a slot name
stores into the slot.  Reading goes through the slot descriptor when one
exists for the name (raising `AttributeError` when that slot was never
assigned) and otherwise through the instance dict.
`BasicTick.__init__` executes
`self.__dateTime = dateTime; self.__open = bid; self.__close = ask`,
i.e. it assigns `_BasicTick__dateTime` (a slot) and
`_BasicTick__open` / `_BasicTick__close` (dict entries), and always
succeeds.  Attribute values are embedded uniformly as rationals (a
datetime is a numeric timestamp here; only identity of the stored value
matters). -/

namespace TickMod

/-- The mangled slot names declared by `BasicTick.__slots__`. -/
def basicTickSlots : List String :=
  ["_BasicTick__dateTime", "_BasicTick__bid", "_BasicTick__ask"]

/-- A `BasicTick` instance: the assigned slot values, and the instance
`__dict__` (present because the base class `Tick` has no `__slots__`). -/
structure BasicTickObj where
  slots : List (String × ℚ)
  dict : List (String × ℚ)
deriving DecidableEq, Repr

/-- `setattr` on a `BasicTick` instance: a name with a slot descriptor
is stored in the slot, any other name is stored in the instance
`__dict__`; assignment never fails. -/
def objSetattr (o : BasicTickObj) (name : String) (v : ℚ) : BasicTickObj :=
  if basicTickSlots.contains name then
    { o with slots := (o.slots.filter (fun p => p.1 ≠ name)) ++ [(name, v)] }
  else
    { o with dict := (o.dict.filter (fun p => p.1 ≠ name)) ++ [(name, v)] }

/-- Reading an attribute of a `BasicTick` instance: a name with a slot
descriptor reads the slot — `AttributeError` when that slot was never
assigned — and any other name reads the instance `__dict__`. -/
def objGetattr (o : BasicTickObj) (name : String) : Except PyErr ℚ :=
  if basicTickSlots.contains name then
    match o.slots.lookup name with
    | some v => .ok v
    | none => .error (.attributeError name)
  else
    match o.dict.lookup name with
    | some v => .ok v
    | none => .error (.attributeError name)

/-- `BasicTick.__init__(self, dateTime, bid, ask)` as written in the
source: it assigns `self.__dateTime`, then `self.__open` (with the bid)
and `self.__close` (with the ask); it always succeeds. -/
def BasicTick_init (dateTime bid ask : ℚ) : BasicTickObj :=
  let o : BasicTickObj := ⟨[], []⟩
  let o := objSetattr o "_BasicTick__dateTime" dateTime
  let o := objSetattr o "_BasicTick__open" bid
  let o := objSetattr o "_BasicTick__close" ask
  o

/-- `BasicTick.getDateTime(self)`: reads `self.__dateTime`. -/
def BasicTick_getDateTime (o : BasicTickObj) : Except PyErr ℚ :=
  objGetattr o "_BasicTick__dateTime"

/-- `BasicTick.getBid(self)`: reads `self.__bid`. -/
def BasicTick_getBid (o : BasicTickObj) : Except PyErr ℚ :=
  objGetattr o "_BasicTick__bid"

/-- `BasicTick.getAsk(self)`: reads `self.__ask`. -/
def BasicTick_getAsk (o : BasicTickObj) : Except PyErr ℚ :=
  objGetattr o "_BasicTick__ask"

end TickMod

/-! ## `pyalgotrade/tickfeed/memtf.py` : the in-memory tick feed

The feed keeps, per instrument, a datetime-sorted list of ticks and a
cursor `__nextPos`; `addTicksFromSequence` sorts each list by datetime.
For the feed only `getDateTime()` of a tick is consumed, so a stored tick
is embedded as its datetime (a natural number).  Dict iteration order is
insertion order; the per-instrument entries are embedded as a list of
`Series` in that order, with pairwise distinct instruments by
construction (`setdefault`). -/

namespace MemTF

/-- One instrument entry of the feed: `self.__ticks[instrument]` together
with its cursor `self.__nextPos[instrument]`. -/
structure Series where
  instrument : String
  ticks : List ℕ
  nextPos : ℕ
deriving DecidableEq, Repr

/-- The ticks of a series not yet consumed: `ticks[nextPos:]`. -/
def Series.pending (s : Series) : List ℕ := s.ticks.drop s.nextPos

/-- The state of `memtf.TickFeed`: the per-instrument series and
`self.__currDateTime` (datetime of the last emitted batch, if any). -/
structure FeedState where
  series : List Series
  currDateTime : Option ℕ
deriving DecidableEq, Repr

/-- `pyalgotrade.utils.safe_min` (helper module not under `src/`).
Modelled from the spec: `peek_datetime()` is the minimum datetime over
the pending heads, absent when all are exhausted; `safe_min` returns the
other argument when one is absent and the minimum otherwise. -/
def safeMin : Option ℕ → Option ℕ → Option ℕ
  | none, r => r
  | some l, none => some l
  | some l, some r => some (min l r)

/-- The loop body of `TickFeed.peekDateTime`, folded over the series in
iteration order starting from `ret = None`. -/
def peekGo (acc : Option ℕ) : List Series → Option ℕ
  | [] => acc
  | s :: rest =>
      match s.pending.head? with
      | some d => peekGo (safeMin acc (some d)) rest
      | none => peekGo acc rest

/-- `TickFeed.peekDateTime(self)`. -/
def peekDateTime (f : FeedState) : Option ℕ := peekGo none f.series

/-- The second pass of `TickFeed.getNextTicks` for one instrument: if the
current tick exists and has the smallest datetime, it is put in the
result and the cursor is advanced. -/
def Series.advance (smallest : ℕ) (s : Series) :
    Option (String × ℕ) × Series :=
  match s.pending.head? with
  | some d =>
      if d = smallest then
        (some (s.instrument, d), { s with nextPos := s.nextPos + 1 })
      else (none, s)
  | none => (none, s)

/-- Errors raised by the feed and by the `Ticks` constructor. -/
inductive FeedErr
  | duplicateTicks
  | noTicksSupplied
  | timesNotInSync
deriving DecidableEq, Repr

/-- An emitted `Ticks` batch: the common datetime and the instrument/tick
pairs in dict insertion order. -/
structure TicksBatch where
  dateTime : ℕ
  items : List (String × ℕ)
deriving DecidableEq, Repr

/-- `tick.Ticks(tickDict)`: fails on an empty mapping, fails when the
datetimes disagree with the first entry, otherwise records the first
entry's datetime as the batch datetime. -/
def mkTicks (l : List (String × ℕ)) : Except FeedErr TicksBatch :=
  match l with
  | [] => .error .noTicksSupplied
  | (_, d) :: _ =>
      if l.all (fun p => p.2 = d) then .ok ⟨d, l⟩
      else .error .timesNotInSync

/-- `TickFeed.getNextTicks(self)`.  Returns the outcome together with the
post-call state: the source mutates `self.__nextPos` for every tick of
the batch before the duplicate-datetime check, so on the duplicate error
the advanced cursors are kept while `__currDateTime` is not updated. -/
def getNextTicks (f : FeedState) :
    Except FeedErr (Option TicksBatch) × FeedState :=
  match peekDateTime f with
  | none => (.ok none, f)
  | some smallest =>
      if f.currDateTime = some smallest then
        (.error .duplicateTicks,
          ⟨(f.series.map (Series.advance smallest)).map Prod.snd,
            f.currDateTime⟩)
      else
        match mkTicks ((f.series.map (Series.advance smallest)).filterMap
            Prod.fst) with
        | .ok b =>
            (.ok (some b),
              ⟨(f.series.map (Series.advance smallest)).map Prod.snd,
                some smallest⟩)
        | .error e =>
            (.error e,
              ⟨(f.series.map (Series.advance smallest)).map Prod.snd,
                some smallest⟩)

/-- Datetimes of the batches successfully returned by the next `n` calls
to `getNextTicks` (failed calls keep the mutated state and continue). -/
def feedRun (f : FeedState) : ℕ → List ℕ
  | 0 => []
  | n + 1 =>
      match getNextTicks f with
      | (.ok (some b), f') => b.dateTime :: feedRun f' n
      | (.ok none, f') => feedRun f' n
      | (.error _, f') => feedRun f' n

/-- Feed well-formedness maintained by `addTicksFromSequence` (which
sorts every per-instrument list) and by consumption: each tick list is
sorted, and every pending tick is at or after the last emitted batch. -/
def FeedInv (f : FeedState) : Prop :=
  (∀ s ∈ f.series, List.Sorted (· ≤ ·) s.ticks) ∧
  (∀ c, f.currDateTime = some c → ∀ s ∈ f.series, ∀ d ∈ s.pending, c ≤ d)

end MemTF

/-! ## `pyalgotrade/tickbroker` : fill strategy and backtesting broker

The broker and fill strategy operate on orders and on ticks through the
`Tick` interface (`getDateTime`, `getBid`, `getAsk`, `getFrequency`).
Prices, cash and quantities are rationals; a broker datetime is a
(day, second-of-day) pair, `date()` being its day.

The base order machinery lives in `pyalgotrade/broker/__init__.py`,
which is not under `src/`; those parts (`Order` state and transitions,
`Order.addExecutionInfo`, `IntegerTraits.roundQuantity`,
`OrderExecutionInfo`) are modelled from the spec and marked as such.
Everything else is translated from
`src/pyalgotrade/tickbroker/fillstrategy.py` and
`src/pyalgotrade/tickbroker/backtesting.py`. -/

namespace TB

/-- A broker datetime: calendar day and time of day.  `date()` keeps the
day only; datetimes compare lexicographically. -/
structure BDateTime where
  day : ℕ
  sec : ℕ
deriving DecidableEq, Repr

/-- Modelled from the spec: the frequency tags of `pyalgotrade.bar`
(module not under `src/`), an increasing numeric enumeration with
`TRADE` below every timed frequency and `DAY` the threshold used by
`isIntraday` and the broker expiry check. -/
def Frequency.TRADE : ℤ := -1

/-- Modelled from the spec: the `DAY` frequency tag. -/
def Frequency.DAY : ℤ := 86400

/-- A tick as consumed through the `Tick` interface.  `BasicTick` (the
only concrete class) answers `TRADE` for `getFrequency`; the frequency is
kept as a field since the interface allows other implementations. -/
structure BTick where
  dateTime : BDateTime
  bid : ℚ
  ask : ℚ
  frequency : ℤ
deriving DecidableEq, Repr

/-- `Order.Action`: the spec restricts actions to BUY and SELL. -/
inductive Action
  | buy
  | sell
deriving DecidableEq, Repr

/-- Modelled from the spec: the order state machine
`INITIAL | SUBMITTED | ACCEPTED | PARTIALLY_FILLED | FILLED | CANCELED`. -/
inductive OState
  | initialSt
  | submittedSt
  | acceptedSt
  | partiallyFilledSt
  | filledSt
  | canceledSt
deriving DecidableEq, Repr

/-- The concrete order kind with its kind-specific price fields
(`MarketOrder`, `LimitOrder`, `StopOrder`, `StopLimitOrder`). -/
inductive OKind
  | market (onClose : Bool)
  | limitK (limitPrice : ℚ)
  | stopK (stopPrice : ℚ)
  | stopLimitK (stopPrice limitPrice : ℚ)
deriving DecidableEq, Repr

/-- Modelled from the spec: `OrderExecutionInfo(price, quantity,
commission, dateTime)`, the record attached to an order on each fill. -/
structure ExecInfo where
  price : ℚ
  quantity : ℚ
  commission : ℚ
  dateTime : BDateTime
deriving DecidableEq, Repr

/-- An order.  Identity, quantities and flags are from the spec data
model; `stopHit` is the flag kept by the backtesting `StopOrder` /
`StopLimitOrder` subclasses; `acceptedDateTime` is the field of
`BacktestingOrder`. -/
structure Order where
  id : Option ℕ
  action : Action
  instrument : String
  quantity : ℚ
  filled : ℚ
  state : OState
  goodTillCanceled : Bool
  allOrNone : Bool
  kind : OKind
  stopHit : Bool
  submittedDateTime : Option BDateTime
  acceptedDateTime : Option BDateTime
  execInfo : Option ExecInfo
deriving DecidableEq, Repr

/-- Modelled from the spec: `remaining = quantity − filled`. -/
def Order.getRemaining (o : Order) : ℚ := o.quantity - o.filled

def Order.isBuy (o : Order) : Bool := o.action = Action.buy

def Order.isSell (o : Order) : Bool := o.action = Action.sell

def Order.isInitial (o : Order) : Bool := o.state = OState.initialSt

def Order.isSubmitted (o : Order) : Bool := o.state = OState.submittedSt

def Order.isFilled (o : Order) : Bool := o.state = OState.filledSt

def Order.isPartiallyFilled (o : Order) : Bool :=
  o.state = OState.partiallyFilledSt

def Order.isCanceled (o : Order) : Bool := o.state = OState.canceledSt

/-- An order is active in SUBMITTED, ACCEPTED or PARTIALLY_FILLED. -/
def Order.isActive (o : Order) : Bool :=
  o.state = OState.submittedSt ∨ o.state = OState.acceptedSt ∨
    o.state = OState.partiallyFilledSt

/-- Modelled from the spec: the legal state transitions of an order;
every other transition raises. -/
def validTransition : OState → OState → Bool
  | .initialSt, .submittedSt => true
  | .submittedSt, .acceptedSt => true
  | .submittedSt, .canceledSt => true
  | .acceptedSt, .partiallyFilledSt => true
  | .acceptedSt, .filledSt => true
  | .acceptedSt, .canceledSt => true
  | .partiallyFilledSt, .partiallyFilledSt => true
  | .partiallyFilledSt, .filledSt => true
  | .partiallyFilledSt, .canceledSt => true
  | _, _ => false

/-- Modelled from the spec: `Order.switchState` validates the transition
and raises `IllegalStateTransition` otherwise. -/
def Order.switchState (o : Order) (s : OState) : Except PyErr Order :=
  if validTransition o.state s then .ok { o with state := s }
  else .error (.exceptionRaised "IllegalStateTransition")

/-- Modelled from the spec: `IntegerTraits.roundQuantity` rounds a
quantity to a whole number of shares. -/
def roundQuantity (q : ℚ) : ℚ := (pyRound q : ℚ)

/-- Modelled from the spec: `Order.addExecutionInfo` — legal only from
ACCEPTED or PARTIALLY_FILLED, must not exceed the remaining quantity
(invariant `filled ≤ quantity`), adds to `filled`, records the execution
info, and switches to FILLED when `filled == quantity` and to
PARTIALLY_FILLED otherwise. -/
def Order.addExecutionInfo (o : Order) (info : ExecInfo) :
    Except PyErr Order :=
  if info.quantity > o.getRemaining then
    .error (.exceptionRaised "Invalid fill size")
  else if o.state = OState.acceptedSt ∨
      o.state = OState.partiallyFilledSt then
    .ok { o with
      filled := o.filled + info.quantity,
      execInfo := some info,
      state :=
        if o.filled + info.quantity = o.quantity then OState.filledSt
        else OState.partiallyFilledSt }
  else .error (.exceptionRaised "IllegalStateTransition")

/-- A `Ticks` batch as the broker receives it: instrument/tick pairs in
dict order.  `getTick` returns the tick for an instrument or none. -/
structure BTicks where
  items : List (String × BTick)
deriving DecidableEq, Repr

def BTicks.getTick (ts : BTicks) (instrument : String) : Option BTick :=
  ts.items.lookup instrument

/-- `FillInfo(price, quantity)` from `fillstrategy.py`. -/
structure FillInfo where
  price : ℚ
  quantity : ℚ
deriving DecidableEq, Repr

/-- Python dict assignment `d[k] = v`: replace in place or append. -/
def setKey (l : List (String × ℚ)) (k : String) (v : ℚ) :
    List (String × ℚ) :=
  if (l.lookup k).isSome then
    l.map (fun p => if p.1 = k then (k, v) else p)
  else l ++ [(k, v)]

/-- Python `del d[k]`: raises `KeyError` when the key is absent. -/
def delKey (l : List (String × ℚ)) (k : String) :
    Except PyErr (List (String × ℚ)) :=
  if (l.lookup k).isSome then .ok (l.filter (fun p => p.1 ≠ k))
  else .error (.keyError k)

/-- Python dict read `d[k]`: raises `KeyError` when the key is absent. -/
def getKey (l : List (String × ℚ)) (k : String) : Except PyErr ℚ :=
  match l.lookup k with
  | some v => .ok v
  | none => .error (.keyError k)

/-! ### `fillstrategy.py` -/

/-- `get_limit_price_trigger(action, limitPrice, tick)` (three
parameters): returns the tick's bid unconditionally. -/
def get_limit_price_trigger (action : Action) (limitPrice : ℚ)
    (tick : BTick) : Option ℚ :=
  some tick.bid

/-- `get_stop_price_trigger(action, stopPrice, tick)` (three
parameters): returns the tick's bid unconditionally. -/
def get_stop_price_trigger (action : Action) (stopPrice : ℚ)
    (tick : BTick) : Option ℚ :=
  some tick.bid

/-- A positional argument of a Python call to the trigger helpers. -/
inductive PyArg
  | act (a : Action)
  | num (q : ℚ)
  | boolean (b : Bool)
  | tickArg (t : BTick)
deriving DecidableEq, Repr

/-- Dynamic dispatch of a call to `get_limit_price_trigger`: the function
takes exactly three positional parameters, so any other argument list
raises `TypeError` at the call. -/
def call_get_limit_price_trigger : List PyArg → Except PyErr (Option ℚ)
  | [PyArg.act a, PyArg.num p, PyArg.tickArg t] =>
      .ok (get_limit_price_trigger a p t)
  | _ =>
      .error (.typeError
        "get_limit_price_trigger takes 3 positional arguments")

/-- Dynamic dispatch of a call to `get_stop_price_trigger`: the function
takes exactly three positional parameters, so any other argument list
raises `TypeError` at the call. -/
def call_get_stop_price_trigger : List PyArg → Except PyErr (Option ℚ)
  | [PyArg.act a, PyArg.num p, PyArg.tickArg t] =>
      .ok (get_stop_price_trigger a p t)
  | _ =>
      .error (.typeError
        "get_stop_price_trigger takes 3 positional arguments")

/-- The state of `DefaultStrategy`: per-instrument volume budgets and the
volume limit (`0.25` by default, or absent). -/
structure FillState where
  volumeLeft : List (String × ℚ)
  volumeUsed : List (String × ℚ)
  volumeLimit : Option ℚ
deriving DecidableEq, Repr

/-- `DefaultStrategy()` as constructed by the broker: empty volume maps
and the default volume limit of 0.25. -/
def defaultFillState : FillState := ⟨[], [], some (1/4)⟩

/-- `DefaultStrategy.onTicks`: rebuild `volumeLeft` from scratch — for a
TRADE-frequency tick, and otherwise when a volume limit is set, the
available volume is the hardcoded `10000` — and reset `volumeUsed` to 0
for every instrument of the batch. -/
def FillState.onTicks (fs : FillState) (ticks : BTicks) : FillState :=
  { fs with
    volumeLeft := ticks.items.foldl (fun acc p =>
      if p.2.frequency = Frequency.TRADE then setKey acc p.1 10000
      else if fs.volumeLimit.isSome then setKey acc p.1 10000
      else acc) [],
    volumeUsed := ticks.items.foldl (fun acc p => setKey acc p.1 0)
      fs.volumeUsed }

/-- `DefaultStrategy.__calculateFillSize`: with a volume limit the cap is
the rounded remaining volume budget (0 when the instrument is unknown),
otherwise the order's remaining size; an all-or-none order fills its
whole remaining size or nothing. -/
def calculateFillSize (fs : FillState) (o : Order) : ℚ :=
  let maxVolume : ℚ :=
    match fs.volumeLimit with
    | some _ => roundQuantity ((fs.volumeLeft.lookup o.instrument).getD 0)
    | none => o.getRemaining
  if ¬ o.allOrNone then min maxVolume o.getRemaining
  else if o.getRemaining ≤ maxVolume then o.getRemaining
  else 0

/-- `DefaultStrategy.onOrderFilled`: consume the fill quantity from the
(rounded) volume budget — asserting it suffices — and add it to the
volume used. -/
def FillState.onOrderFilled (fs : FillState) (o : Order) :
    Except PyErr FillState :=
  match o.execInfo with
  | none => .error (.attributeError "getQuantity of None")
  | some info =>
      let updUsed : FillState → Except PyErr FillState := fun fs1 =>
        match fs1.volumeUsed.lookup o.instrument with
        | none => .error (.keyError o.instrument)
        | some vu =>
            .ok { fs1 with
              volumeUsed := setKey fs1.volumeUsed o.instrument
                (roundQuantity (vu + info.quantity)) }
      match fs.volumeLimit with
      | some _ =>
          match fs.volumeLeft.lookup o.instrument with
          | none => .error (.keyError o.instrument)
          | some vl0 =>
              let vl := roundQuantity vl0
              if vl ≥ info.quantity then
                updUsed { fs with
                  volumeLeft := setKey fs.volumeLeft o.instrument
                    (roundQuantity (vl - info.quantity)) }
              else .error .assertionError
      | none => updUsed fs

/-- `LimitOrder.getLimitPrice` / `StopLimitOrder.getLimitPrice`: only
those concrete classes carry a limit price. -/
def Order.getLimitPrice (o : Order) : Except PyErr ℚ :=
  match o.kind with
  | .limitK lp => .ok lp
  | .stopLimitK _ lp => .ok lp
  | _ => .error (.attributeError "getLimitPrice")

/-- `StopOrder.getStopPrice` / `StopLimitOrder.getStopPrice`. -/
def Order.getStopPrice (o : Order) : Except PyErr ℚ :=
  match o.kind with
  | .stopK sp => .ok sp
  | .stopLimitK sp _ => .ok sp
  | _ => .error (.attributeError "getStopPrice")

/-- `DefaultStrategy.fillMarketOrder`: no fill on zero size, price is the
bid on both branches of the fill-on-close test, and for a non-TRADE tick
the (identity) `NoSlippage` model is applied after reading
`volumeUsed[instrument]` (a `KeyError` when absent). -/
def fillMarketOrder (fs : FillState) (o : Order) (tick : BTick) :
    Except PyErr (Option FillInfo) :=
  let fillSize := calculateFillSize fs o
  if fillSize = 0 then .ok none
  else
    let price := tick.bid
    if tick.frequency ≠ Frequency.TRADE then
      match fs.volumeUsed.lookup o.instrument with
      | none => .error (.keyError o.instrument)
      | some _ => .ok (some ⟨price, fillSize⟩)
    else .ok (some ⟨price, fillSize⟩)

/-- `DefaultStrategy.fillLimitOrder`: no fill on zero size; otherwise the
source calls `get_limit_price_trigger` with FOUR positional arguments
(action, limit price, `broker_.getUseAdjustedValues()`, tick) although
the helper takes three, so the call raises. -/
def fillLimitOrder (fs : FillState) (o : Order) (useAdj : Bool)
    (tick : BTick) : Except PyErr (Option FillInfo) :=
  let fillSize := calculateFillSize fs o
  if fillSize = 0 then .ok none
  else
    match o.getLimitPrice with
    | .error e => .error e
    | .ok lp =>
        match call_get_limit_price_trigger
            [.act o.action, .num lp, .boolean useAdj, .tickArg tick] with
        | .error e => .error e
        | .ok none => .ok none
        | .ok (some price) => .ok (some ⟨price, fillSize⟩)

/-- `DefaultStrategy.fillStopOrder`.  When the stop was not hit yet, the
source calls `get_stop_price_trigger` with FOUR positional arguments
(the helper takes three), raising before `setStopHit` runs.  In the
already-hit branch, a nonzero fill reads the price as
`tick.getOpen(...)` — `Tick` has no `getOpen` — when not just triggered,
and otherwise guards slippage on `pyalgotrade.tick.Frequency.TRADE`,
an attribute the `tick` module does not define. -/
def fillStopOrder (fs : FillState) (o : Order) (useAdj : Bool)
    (tick : BTick) : Except PyErr (Option FillInfo × Order) :=
  let afterHit : Option ℚ → Order → Except PyErr (Option FillInfo × Order) :=
    fun stopPriceTrigger o1 =>
      if o1.stopHit then
        let fillSize := calculateFillSize fs o1
        if fillSize = 0 then .ok (none, o1)
        else
          match stopPriceTrigger with
          | some _ =>
              .error (.attributeError
                "module pyalgotrade.tick has no attribute Frequency")
          | none =>
              .error (.attributeError
                "Tick object has no attribute getOpen")
      else .ok (none, o1)
  if ¬ o.stopHit then
    match o.getStopPrice with
    | .error e => .error e
    | .ok sp =>
        match call_get_stop_price_trigger
            [.act o.action, .num sp, .boolean useAdj, .tickArg tick] with
        | .error e => .error e
        | .ok trig => afterHit trig { o with stopHit := trig.isSome }
  else afterHit none o

/-- `DefaultStrategy.fillStopLimitOrder`: same four-argument
`get_stop_price_trigger` call while the stop is not hit; in the hit
branch a nonzero fill calls `get_limit_price_trigger` with four
arguments as well. -/
def fillStopLimitOrder (fs : FillState) (o : Order) (useAdj : Bool)
    (tick : BTick) : Except PyErr (Option FillInfo × Order) :=
  let afterHit : Option ℚ → Order → Except PyErr (Option FillInfo × Order) :=
    fun stopPriceTrigger o1 =>
      if o1.stopHit then
        let fillSize := calculateFillSize fs o1
        if fillSize = 0 then .ok (none, o1)
        else
          match o1.getLimitPrice with
          | .error e => .error e
          | .ok lp =>
              match call_get_limit_price_trigger
                  [.act o1.action, .num lp, .boolean useAdj,
                    .tickArg tick] with
              | .error e => .error e
              | .ok none => .ok (none, o1)
              | .ok (some price) =>
                  match stopPriceTrigger with
                  | some st =>
                      .ok (some ⟨if o1.isBuy then min st lp else max st lp,
                        fillSize⟩, o1)
                  | none => .ok (some ⟨price, fillSize⟩, o1)
      else .ok (none, o1)
  if ¬ o.stopHit then
    match o.getStopPrice with
    | .error e => .error e
    | .ok sp =>
        match call_get_stop_price_trigger
            [.act o.action, .num sp, .boolean useAdj, .tickArg tick] with
        | .error e => .error e
        | .ok trig => afterHit trig { o with stopHit := trig.isSome }
  else afterHit none o

/-! ### `backtesting.py` : the broker -/

/-- The mutable state of `tickbroker.backtesting.Broker`: cash, the
per-instrument share map (zero entries removed), the active orders keyed
by id, the next order id (first value 1) and the negative-cash flag.
The fill strategy state is the broker's `DefaultStrategy` instance.  The
commission model is passed to the operations that consult it. -/
structure Broker where
  cash : ℚ
  shares : List (String × ℚ)
  activeOrders : List (ℕ × Order)
  nextOrderId : ℕ
  allowNegativeCash : Bool
  fill : FillState
deriving DecidableEq, Repr

/-- `Broker.getShares`: 0 for an unknown instrument. -/
def Broker.getShares (b : Broker) (instrument : String) : ℚ :=
  (b.shares.lookup instrument).getD 0

/-- `Broker._registerOrder`: asserts a fresh, assigned id. -/
def Broker.registerOrder (b : Broker) (o : Order) : Except PyErr Broker :=
  match o.id with
  | none => .error .assertionError
  | some i =>
      if (b.activeOrders.lookup i).isSome then .error .assertionError
      else .ok { b with activeOrders := b.activeOrders ++ [(i, o)] }

/-- `Broker._unregisterOrder`: asserts a known, assigned id. -/
def Broker.unregisterOrder (b : Broker) (o : Order) : Except PyErr Broker :=
  match o.id with
  | none => .error .assertionError
  | some i =>
      if (b.activeOrders.lookup i).isSome then
        .ok { b with activeOrders := b.activeOrders.filter (fun p => p.1 ≠ i) }
      else .error .assertionError

/-- In Python the active-orders dict holds the very order objects the
broker mutates; after a state change of an order this refreshes the
registered copy (a no-op when the order is not registered). -/
def Broker.writeBack (b : Broker) (o : Order) : Broker :=
  match o.id with
  | none => b
  | some i =>
      { b with activeOrders :=
          b.activeOrders.map (fun p => if p.1 = i then (i, o) else p) }

/-- The order events of `broker.OrderEvent`. -/
inductive OEventType
  | submittedEv
  | acceptedEv
  | filledEv
  | partiallyFilledEv
  | canceledEv
deriving DecidableEq, Repr

/-- An emitted order event: type, order snapshot, execution info for
fills, cancellation reason. -/
structure OrderEvent where
  eventType : OEventType
  order : Order
  info : Option ExecInfo
  reason : Option String
deriving DecidableEq, Repr

/-- `Broker.commitOrderExecution(order, dateTime, fillInfo)`: signed cost
with sign asserts, commission always subtracted, the insufficient-cash
branch only logs, and the committed branch updates the order (which may
raise) before cash and positions, removes zero positions (`del`),
notifies the fill strategy and emits FILLED (after unregistering) or
PARTIALLY_FILLED. -/
def commitOrderExecution (cm : Order → ℚ → ℚ → ℚ) (b : Broker) (o : Order)
    (dateTime : BDateTime) (fi : FillInfo) :
    Except PyErr (Broker × Order × List OrderEvent) :=
  let price := fi.price
  let quantity := fi.quantity
  match (match o.action with
    | Action.buy =>
        if price * quantity * (-1) < 0 then
          Except.ok (price * quantity * (-1), quantity)
        else Except.error PyErr.assertionError
    | Action.sell =>
        if price * quantity > 0 then
          Except.ok (price * quantity, -quantity)
        else Except.error PyErr.assertionError) with
  | .error e => .error e
  | .ok (cost0, sharesDelta) =>
      let commission := cm o price quantity
      let cost := cost0 - commission
      let resultingCash := b.cash + cost
      if resultingCash ≥ 0 ∨ b.allowNegativeCash then
        let info : ExecInfo := ⟨price, quantity, commission, dateTime⟩
        match o.addExecutionInfo info with
        | .error e => .error e
        | .ok o' =>
            let b1 : Broker := { b with cash := resultingCash }
            let updatedShares :=
              roundQuantity (b.getShares o.instrument + sharesDelta)
            match (if updatedShares = 0 then delKey b1.shares o.instrument
                else Except.ok (setKey b1.shares o.instrument
                  updatedShares)) with
            | .error e => .error e
            | .ok shares' =>
                let b2 : Broker := { b1 with shares := shares' }
                match b2.fill.onOrderFilled o' with
                | .error e => .error e
                | .ok fs' =>
                    let b3 : Broker := { b2 with fill := fs' }
                    if o'.isFilled then
                      match b3.unregisterOrder o' with
                      | .error e => .error e
                      | .ok b4 =>
                          .ok (b4.writeBack o',
                            o', [⟨.filledEv, o', some info, none⟩])
                    else if o'.isPartiallyFilled then
                      .ok (b3.writeBack o',
                        o', [⟨.partiallyFilledEv, o', some info, none⟩])
                    else .error .assertionError
      else .ok (b, o, [])

/-- `Broker.submitOrder`: only from INITIAL — assign the next id and the
feed's current datetime, register, switch to SUBMITTED and emit. -/
def Broker.submitOrder (b : Broker) (currentDT : Option BDateTime)
    (o : Order) : Except PyErr (Broker × Order × List OrderEvent) :=
  if o.isInitial then
    let orderId := b.nextOrderId
    let b1 : Broker := { b with nextOrderId := b.nextOrderId + 1 }
    let o1 : Order :=
      { o with id := some orderId, submittedDateTime := currentDT }
    match b1.registerOrder o1 with
    | .error e => .error e
    | .ok b2 =>
        match o1.switchState OState.submittedSt with
        | .error e => .error e
        | .ok o2 =>
            .ok (b2.writeBack o2, o2, [⟨.submittedEv, o2, none, none⟩])
  else .error (.exceptionRaised "The order was already processed")

/-- `Broker.__preProcessOrder`: a non-GTC order whose tick date is past
its acceptance date is unregistered, CANCELED and reported Expired;
returns whether processing continues. -/
def preProcessOrder (b : Broker) (o : Order) (tick : BTick) :
    Except PyErr (Bool × Broker × Order × List OrderEvent) :=
  if ¬ o.goodTillCanceled then
    match o.acceptedDateTime with
    | none => .error (.attributeError "date of None")
    | some acc =>
        if acc.day < tick.dateTime.day then
          match b.unregisterOrder o with
          | .error e => .error e
          | .ok b1 =>
              match o.switchState OState.canceledSt with
              | .error e => .error e
              | .ok o1 =>
                  .ok (false, b1.writeBack o1, o1,
                    [⟨.canceledEv, o1, none, some "Expired"⟩])
        else .ok (true, b, o, [])
  else .ok (true, b, o, [])

/-- `Broker.__postProcessOrder`: for a non-GTC order the guard evaluates
`self.__tickFeed.getFrequency() >= pyalgotrade.tick.Frequency.DAY`, but
module `pyalgotrade.tick` defines no `Frequency` attribute, so the
lookup raises `AttributeError` whatever the feed frequency is. -/
def postProcessOrder (b : Broker) (o : Order) (tick : BTick) :
    Except PyErr (Broker × Order × List OrderEvent) :=
  if ¬ o.goodTillCanceled then
    .error (.attributeError "module pyalgotrade.tick has no attribute Frequency")
  else .ok (b, o, [])

/-- The double dispatch `order.process(broker, tick)` into the fill
strategy by concrete order kind. -/
def Order.processFill (fs : FillState) (useAdj : Bool) (o : Order)
    (tick : BTick) : Except PyErr (Option FillInfo × Order) :=
  match o.kind with
  | .market _ =>
      match fillMarketOrder fs o tick with
      | .error e => .error e
      | .ok fi => .ok (fi, o)
  | .limitK _ =>
      match fillLimitOrder fs o useAdj tick with
      | .error e => .error e
      | .ok fi => .ok (fi, o)
  | .stopK _ => fillStopOrder fs o useAdj tick
  | .stopLimitK _ _ => fillStopLimitOrder fs o useAdj tick

/-- `Broker.__processOrder`: pre-process expiry, fill attempt, commit of
a produced fill, and post-process expiry while the order is still
active. -/
def processOrder (cm : Order → ℚ → ℚ → ℚ) (useAdj : Bool) (b : Broker)
    (o : Order) (tick : BTick) :
    Except PyErr (Broker × Order × List OrderEvent) :=
  match preProcessOrder b o tick with
  | .error e => .error e
  | .ok (cont, b1, o1, evs1) =>
      if ¬ cont then .ok (b1, o1, evs1)
      else
        match Order.processFill b1.fill useAdj o1 tick with
        | .error e => .error e
        | .ok (fi?, o2) =>
            let b1' := b1.writeBack o2
            match (match fi? with
              | some fi => commitOrderExecution cm b1' o2 tick.dateTime fi
              | none => Except.ok (b1', o2, [])) with
            | .error e => .error e
            | .ok (b2, o3, evs2) =>
                if o3.isActive then
                  match postProcessOrder b2 o3 tick with
                  | .error e => .error e
                  | .ok (b3, o4, evs3) =>
                      .ok (b3.writeBack o4, o4, evs1 ++ evs2 ++ evs3)
                else .ok (b2, o3, evs1 ++ evs2)

/-- `Broker.__onTicksImpl(order, ticks)`: skip when the batch has no tick
for the order's instrument; accept a SUBMITTED order at the tick's
datetime; process while active (the source's remaining branch asserts
the order was canceled). -/
def onTicksImpl (cm : Order → ℚ → ℚ → ℚ) (useAdj : Bool) (b : Broker)
    (o : Order) (ticks : BTicks) :
    Except PyErr (Broker × List OrderEvent) :=
  match ticks.getTick o.instrument with
  | none => .ok (b, [])
  | some tick =>
      match (if o.isSubmitted then
          match ({ o with acceptedDateTime := some tick.dateTime } :
              Order).switchState OState.acceptedSt with
          | .error e => .error e
          | .ok oa =>
              Except.ok (oa, [(⟨.acceptedEv, oa, none, none⟩ : OrderEvent)])
        else Except.ok (o, ([] : List OrderEvent))) with
      | .error e => .error e
      | .ok (o1, evs1) =>
          let b1 := b.writeBack o1
          if o1.isActive then
            match processOrder cm useAdj b1 o1 tick with
            | .error e => .error e
            | .ok (b2, _, evs2) => .ok (b2, evs1 ++ evs2)
          else
            if o1.isCanceled then .ok (b1, evs1)
            else .error .assertionError

/-- Submit a list of orders in sequence (strategy-side submissions made
from callbacks during a step). -/
def submitList (currentDT : Option BDateTime) :
    Broker → List Order → Except PyErr (Broker × List OrderEvent)
  | b, [] => .ok (b, [])
  | b, o :: rest =>
      match b.submitOrder currentDT o with
      | .error e => .error e
      | .ok (b1, _, evs1) =>
          match submitList currentDT b1 rest with
          | .error e => .error e
          | .ok (b2, evs2) => .ok (b2, evs1 ++ evs2)

/-- The loop of `Broker.onTicks` over the frozen cohort.  After each
cohort order, `subs` supplies the orders that strategy callbacks submit
at that point of the step (they mutate `activeOrders` but not the frozen
cohort). -/
def stepOrders (cm : Order → ℚ → ℚ → ℚ) (useAdj : Bool)
    (currentDT : Option BDateTime) (ticks : BTicks) :
    Broker → List (ℕ × Order) → List (List Order) →
      Except PyErr (Broker × List OrderEvent)
  | b, [], _ => .ok (b, [])
  | b, (_, o) :: cohort, subs =>
      match onTicksImpl cm useAdj b o ticks with
      | .error e => .error e
      | .ok (b1, evs1) =>
          match submitList currentDT b1 (subs.headD []) with
          | .error e => .error e
          | .ok (b2, evs2) =>
              match stepOrders cm useAdj currentDT ticks b2 cohort
                  subs.tail with
              | .error e => .error e
              | .ok (b3, evs3) => .ok (b3, evs1 ++ evs2 ++ evs3)

/-- `Broker.onTicks(dateTime, ticks)`: notify the fill strategy, freeze
`list(activeOrders.values())`, then process exactly that cohort. -/
def Broker.onTicks (cm : Order → ℚ → ℚ → ℚ) (useAdj : Bool)
    (currentDT : Option BDateTime) (b : Broker) (ticks : BTicks)
    (subs : List (List Order)) :
    Except PyErr (Broker × List OrderEvent) :=
  let b0 : Broker := { b with fill := b.fill.onTicks ticks }
  stepOrders cm useAdj currentDT ticks b0 b0.activeOrders subs

/-- Id discipline maintained by the broker: every registered active
order has an id below the next fresh id. -/
def IdInv (b : Broker) : Prop :=
  ∀ p ∈ b.activeOrders, p.1 < b.nextOrderId

/-- Fill-strategy state for the volume-cap scenario of the spec:
`volume_left["AAA"] = 20` with the default volume limit. -/
def fsCap : FillState := ⟨[("AAA", 20)], [("AAA", 0)], some (1/4)⟩

/-- An all-or-none BUY 80 order on AAA, accepted and unfilled. -/
def orderAoN : Order :=
  { id := some 2, action := .buy, instrument := "AAA", quantity := 80,
    filled := 0, state := .acceptedSt, goodTillCanceled := true,
    allOrNone := true, kind := .market false, stopHit := false,
    submittedDateTime := none, acceptedDateTime := none, execInfo := none }

/-- A plain (non-all-or-none) BUY 80 order on AAA. -/
def orderPlain : Order := { orderAoN with id := some 3, allOrNone := false }

/-- A TRADE tick on AAA at bid 10 / ask 11, day 1. -/
def tickAAA : BTick := ⟨⟨1, 0⟩, 10, 11, Frequency.TRADE⟩

/-- GTC limit BUY 50 @ 10 on AAA, accepted on day 1, unfilled. -/
def orderLimitBuy : Order :=
  { id := some 1, action := .buy, instrument := "AAA", quantity := 50,
    filled := 0, state := .acceptedSt, goodTillCanceled := true,
    allOrNone := false, kind := .limitK 10, stopHit := false,
    submittedDateTime := none, acceptedDateTime := some ⟨1, 0⟩,
    execInfo := none }

/-- A TRADE tick on AAA with bid 11. -/
def tickBid11 : BTick := ⟨⟨1, 0⟩, 11, 12, Frequency.TRADE⟩

/-- The fill-strategy state after `onTicks` on the batch holding that
tick: `volume_left["AAA"] = 10000`, `volume_used["AAA"] = 0`. -/
def fsAfterTick11 : FillState := ⟨[("AAA", 10000)], [("AAA", 0)], some (1/4)⟩

/-- STOP BUY 10 @ stop 15 on AAA, accepted on day 1, stop not hit. -/
def orderStopBuy : Order :=
  { id := some 4, action := .buy, instrument := "AAA", quantity := 10,
    filled := 0, state := .acceptedSt, goodTillCanceled := true,
    allOrNone := false, kind := .stopK 15, stopHit := false,
    submittedDateTime := none, acceptedDateTime := some ⟨1, 0⟩,
    execInfo := none }

/-- A TRADE tick on AAA with bid 14 (below the stop). -/
def tickBid14 : BTick := ⟨⟨1, 0⟩, 14, 15, Frequency.TRADE⟩

/-- A TRADE tick on AAA with bid 16 (above the stop). -/
def tickBid16 : BTick := ⟨⟨1, 1⟩, 16, 17, Frequency.TRADE⟩

/-- The buyer-perspective sign of an action: `+1` for BUY, `-1` for
SELL. -/
def signQ : Action → ℚ
  | .buy => 1
  | .sell => -1

/-- The `NoCommission` model: always 0. -/
def cmZero : Order → ℚ → ℚ → ℚ := fun _ _ _ => 0

/-- Sequential commits of a list of (order, datetime, fill) triples,
collecting for each committed execution its action and execution info
(taken from the emitted FILLED / PARTIALLY_FILLED events; an
insufficient-cash attempt commits nothing and contributes no entry). -/
def commitMany (cm : Order → ℚ → ℚ → ℚ) :
    Broker → List (Order × BDateTime × FillInfo) →
      Except PyErr (Broker × List (Action × ExecInfo))
  | b, [] => .ok (b, [])
  | b, (o, dt, fi) :: rest =>
      match commitOrderExecution cm b o dt fi with
      | .error e => .error e
      | .ok (b1, _, evs) =>
          match commitMany cm b1 rest with
          | .error e => .error e
          | .ok (bf, execs) =>
              .ok (bf,
                (evs.filterMap (fun ev =>
                  ev.info.map (fun i => (o.action, i)))) ++ execs)

/-- A non-GTC market BUY 10 on AAA, accepted on day 1. -/
def orderMktBuy10 : Order :=
  { id := some 5, action := .buy, instrument := "AAA", quantity := 10,
    filled := 0, state := .acceptedSt, goodTillCanceled := false,
    allOrNone := false, kind := .market false, stopHit := false,
    submittedDateTime := none, acceptedDateTime := some ⟨1, 0⟩,
    execInfo := none }

/-- A broker with 50 in cash holding that order as its only active
order. -/
def brokerLowCash : Broker :=
  { cash := 50, shares := [], activeOrders := [(5, orderMktBuy10)],
    nextOrderId := 6, allowNegativeCash := false, fill := fsAfterTick11 }

/-- Market BUY 100 on AAA, accepted on day 1, GTC. -/
def orderMktBuy100 : Order :=
  { id := some 1, action := .buy, instrument := "AAA", quantity := 100,
    filled := 0, state := .acceptedSt, goodTillCanceled := true,
    allOrNone := false, kind := .market false, stopHit := false,
    submittedDateTime := none, acceptedDateTime := some ⟨1, 0⟩,
    execInfo := none }

/-- A broker with 10000 in cash holding that order. -/
def brokerRich : Broker :=
  { cash := 10000, shares := [], activeOrders := [(1, orderMktBuy100)],
    nextOrderId := 2, allowNegativeCash := false, fill := fsAfterTick11 }

/-- The execution info of filling that order, 100 shares at 10 with no
commission, on day 1. -/
def infoFill100 : ExecInfo := ⟨10, 100, 0, ⟨1, 0⟩⟩

/-- The order after the full fill. -/
def orderMktBuy100Filled : Order :=
  { orderMktBuy100 with
      filled := 100
      state := .filledSt
      execInfo := some infoFill100 }

/-- The broker after committing that fill: 9000 in cash, 100 shares of
AAA, the order unregistered, 9900 of per-tick volume left. -/
def brokerRichAfter : Broker :=
  { cash := 9000, shares := [("AAA", 100)], activeOrders := [],
    nextOrderId := 2, allowNegativeCash := false,
    fill := ⟨[("AAA", 9900)], [("AAA", 100)], some (1/4)⟩ }

/-- A TRADE tick on AAA, day 1, bid 10. -/
def tickDay1 : BTick := ⟨⟨1, 0⟩, 10, 11, Frequency.TRADE⟩

/-- A TRADE tick on AAA, day 2, bid 10. -/
def tickDay2 : BTick := ⟨⟨2, 0⟩, 10, 11, Frequency.TRADE⟩

/-- A fresh market BUY 1 order on AAA, not yet submitted. -/
def newOrderInit : Order :=
  { id := none, action := .buy, instrument := "AAA", quantity := 1,
    filled := 0, state := .initialSt, goodTillCanceled := true,
    allOrNone := false, kind := .market false, stopHit := false,
    submittedDateTime := none, acceptedDateTime := none, execInfo := none }

/-- The one-tick batch for AAA at day 1. -/
def batchAAA : BTicks := ⟨[("AAA", tickDay1)]⟩

/-- The fresh order as registered by `submitOrder` during the step:
id 2, SUBMITTED. -/
def newOrderSubmitted : Order :=
  { newOrderInit with
      id := some 2
      submittedDateTime := some ⟨1, 0⟩
      state := .submittedSt }

/-- The broker at the end of the witness step: the old order filled and
unregistered, the new order registered with id 2. -/
def brokerFinal : Broker :=
  { brokerRichAfter with
      activeOrders := [(2, newOrderSubmitted)]
      nextOrderId := 3 }

end TB

/-- C9: the claim states that for every datetime, bid and ask,
`BasicTick(d, b, a)` succeeds and `getDateTime`/`getBid`/`getAsk` return
the constructor arguments.  On the code only the first two parts hold:
construction succeeds (the bid and ask land in the instance `__dict__`
under the mangled names `__open` and `__close`) and `getDateTime`
returns the datetime, but `getBid` and `getAsk` read the `__bid` and
`__ask` slots, which are never assigned, and raise `AttributeError`. -/
theorem basicTick_accessors_raise (d b a : ℚ) :
    TickMod.BasicTick_init d b a =
      ⟨[("_BasicTick__dateTime", d)],
        [("_BasicTick__open", b), ("_BasicTick__close", a)]⟩ ∧
    TickMod.BasicTick_getDateTime (TickMod.BasicTick_init d b a) = .ok d ∧
    TickMod.BasicTick_getBid (TickMod.BasicTick_init d b a) =
      .error (PyErr.attributeError "_BasicTick__bid") ∧
    TickMod.BasicTick_getAsk (TickMod.BasicTick_init d b a) =
      .error (PyErr.attributeError "_BasicTick__ask") :=
  ⟨rfl, rfl, rfl, rfl⟩

namespace MemTF

theorem head?_mem {l : List ℕ} {a : ℕ} (h : l.head? = some a) : a ∈ l := by
  cases l with
  | nil => simp at h
  | cons x xs =>
      simp only [List.head?_cons, Option.some.injEq] at h
      exact h ▸ List.mem_cons_self x xs

/-- What a successful `peekDateTime` fold returns: a value that occurs as
a pending head and bounds the accumulator and every pending head below. -/
theorem peekGo_some :
    ∀ (l : List Series) (acc : Option ℕ) (m : ℕ), peekGo acc l = some m →
      (acc = some m ∨ ∃ s ∈ l, s.pending.head? = some m) ∧
      (∀ a, acc = some a → m ≤ a) ∧
      (∀ s ∈ l, ∀ d, s.pending.head? = some d → m ≤ d) := by
  intro l
  induction l with
  | nil =>
      intro acc m h
      simp only [peekGo] at h
      refine ⟨Or.inl h, ?_, ?_⟩
      · intro a ha; rw [h] at ha; exact le_of_eq (Option.some.inj ha)
      · intro s hs; simp at hs
  | cons s rest ih =>
      intro acc m h
      simp only [peekGo] at h
      cases hd : s.pending.head? with
      | none =>
          rw [hd] at h
          obtain ⟨h1, h2, h3⟩ := ih acc m h
          refine ⟨?_, h2, ?_⟩
          · rcases h1 with h1 | ⟨t, ht, hth⟩
            · exact Or.inl h1
            · exact Or.inr ⟨t, List.mem_cons_of_mem _ ht, hth⟩
          · intro t ht d hdt
            rcases List.mem_cons.mp ht with rfl | ht
            · rw [hd] at hdt; cases hdt
            · exact h3 t ht d hdt
      | some d =>
          rw [hd] at h
          obtain ⟨h1, h2, h3⟩ := ih (safeMin acc (some d)) m h
          cases acc with
          | none =>
              have hm_le_d : m ≤ d := h2 d rfl
              refine ⟨?_, ?_, ?_⟩
              · rcases h1 with h1 | ⟨t, ht, hth⟩
                · exact Or.inr ⟨s, List.mem_cons_self _ _, by
                    rw [hd]; exact congrArg some (Option.some.inj h1)⟩
                · exact Or.inr ⟨t, List.mem_cons_of_mem _ ht, hth⟩
              · intro a ha; cases ha
              · intro t ht d' hdt
                rcases List.mem_cons.mp ht with rfl | ht
                · rw [hd] at hdt
                  cases hdt
                  exact hm_le_d
                · exact h3 t ht d' hdt
          | some a =>
              have h2' : m ≤ min a d := h2 (min a d) rfl
              refine ⟨?_, ?_, ?_⟩
              · rcases h1 with h1 | ⟨t, ht, hth⟩
                · have hm : m = min a d := (Option.some.injEq _ _ ▸ h1).symm
                  rcases min_cases a d with ⟨hmin, _⟩ | ⟨hmin, _⟩
                  · exact Or.inl (by rw [hm, hmin])
                  · exact Or.inr ⟨s, List.mem_cons_self _ _, by rw [hd, hm, hmin]⟩
                · exact Or.inr ⟨t, List.mem_cons_of_mem _ ht, hth⟩
              · intro a' ha'
                cases ha'
                exact le_trans h2' (min_le_left _ _)
              · intro t ht d' hdt
                rcases List.mem_cons.mp ht with rfl | ht
                · rw [hd] at hdt
                  cases hdt
                  exact le_trans h2' (min_le_right _ _)
                · exact h3 t ht d' hdt

theorem advance_fst_eq (m : ℕ) (s : Series) :
    (Series.advance m s).1 =
      if s.pending.head? = some m then some (s.instrument, m) else none := by
  unfold Series.advance
  cases hd : s.pending.head? with
  | none => simp
  | some d =>
      by_cases hdm : d = m
      · subst hdm; simp
      · simp [hdm, Option.some.injEq]

theorem advance_snd_eq (m : ℕ) (s : Series) :
    (Series.advance m s).2 =
      if s.pending.head? = some m then { s with nextPos := s.nextPos + 1 }
      else s := by
  unfold Series.advance
  cases hd : s.pending.head? with
  | none => simp
  | some d =>
      by_cases hdm : d = m
      · subst hdm; simp
      · simp [hdm, Option.some.injEq]

theorem filterMap_congr_mem {α β : Type} (l : List α) (f g : α → Option β)
    (h : ∀ a ∈ l, f a = g a) : l.filterMap f = l.filterMap g := by
  induction l with
  | nil => rfl
  | cons x xs ih =>
      simp only [List.filterMap_cons, h x (List.mem_cons_self _ _),
        ih (fun a ha => h a (List.mem_cons_of_mem _ ha))]

theorem pending_sorted {s : Series} (h : List.Sorted (· ≤ ·) s.ticks) :
    List.Sorted (· ≤ ·) s.pending :=
  List.Pairwise.sublist (List.drop_sublist _ _) h

theorem pending_head_le {s : Series} (h : List.Sorted (· ≤ ·) s.ticks)
    {d : ℕ} (hd : s.pending.head? = some d) : ∀ x ∈ s.pending, d ≤ x := by
  have hs := pending_sorted h
  cases hp : s.pending with
  | nil => rw [hp] at hd; cases hd
  | cons y ys =>
      rw [hp] at hd
      simp only [List.head?_cons, Option.some.injEq] at hd
      subst hd
      rw [hp] at hs
      intro x hx
      rcases List.mem_cons.mp hx with rfl | hx
      · exact le_rfl
      · exact List.rel_of_sorted_cons hs x hx

theorem pending_tail {s : Series} :
    ({ s with nextPos := s.nextPos + 1 } : Series).pending = s.pending.tail := by
  simp only [Series.pending, ← List.tail_drop]

/-- After the second pass at the minimum pending datetime `m`, every
series is sorted and all of its pending ticks are at or after `m`. -/
theorem newSeries_bound {f : FeedState} {m : ℕ} (hf : FeedInv f)
    (hpeek : peekDateTime f = some m) :
    ∀ s' ∈ (f.series.map (Series.advance m)).map Prod.snd,
      List.Sorted (· ≤ ·) s'.ticks ∧ ∀ d ∈ s'.pending, m ≤ d := by
  intro s' hs'
  rw [List.map_map] at hs'
  obtain ⟨s, hs, rfl⟩ := List.mem_map.mp hs'
  obtain ⟨_, _, h3⟩ := peekGo_some f.series none m hpeek
  have hsorted := hf.1 s hs
  simp only [Function.comp_apply, advance_snd_eq]
  by_cases hd : s.pending.head? = some m
  · rw [if_pos hd]
    refine ⟨hsorted, ?_⟩
    rw [pending_tail]
    intro d hdmem
    have hmem : d ∈ s.pending := List.mem_of_mem_tail hdmem
    exact pending_head_le hsorted hd d hmem
  · rw [if_neg hd]
    refine ⟨hsorted, ?_⟩
    intro d hdmem
    cases hp : s.pending.head? with
    | none =>
        cases hpn : s.pending with
        | nil => rw [hpn] at hdmem; cases hdmem
        | cons y ys => rw [hpn] at hp; cases hp
    | some d0 =>
        have h1 : m ≤ d0 := h3 s hs d0 hp
        have h2 : d0 ≤ d := pending_head_le hsorted hp d hdmem
        exact le_trans h1 h2

/-- The batch assembled at the minimum pending datetime is nonempty and
time-synchronized, so the `Ticks` constructor succeeds. -/
theorem mkTicks_ret_ok {f : FeedState} {m : ℕ}
    (hpeek : peekDateTime f = some m) :
    mkTicks ((f.series.map (Series.advance m)).filterMap Prod.fst) =
      .ok ⟨m, (f.series.map (Series.advance m)).filterMap Prod.fst⟩ := by
  obtain ⟨h1, _, _⟩ := peekGo_some f.series none m hpeek
  rcases h1 with h1 | ⟨s, hs, hsh⟩
  · cases h1
  have hmemAll : ∀ x ∈ (f.series.map (Series.advance m)).filterMap Prod.fst,
      x.2 = m := by
    intro x hx
    obtain ⟨y, hy, hyx⟩ := List.mem_filterMap.mp hx
    obtain ⟨t, _, rfl⟩ := List.mem_map.mp hy
    rw [advance_fst_eq] at hyx
    by_cases hth : t.pending.head? = some m
    · rw [if_pos hth] at hyx
      cases hyx
      rfl
    · rw [if_neg hth] at hyx; cases hyx
  have hmem : (s.instrument, m) ∈
      (f.series.map (Series.advance m)).filterMap Prod.fst := by
    refine List.mem_filterMap.mpr ⟨Series.advance m s, List.mem_map_of_mem _ hs, ?_⟩
    rw [advance_fst_eq, if_pos hsh]
  cases hret : (f.series.map (Series.advance m)).filterMap Prod.fst with
  | nil => rw [hret] at hmem; cases hmem
  | cons p tl =>
      obtain ⟨p1, p2⟩ := p
      have hp2 : p2 = m := by
        have := hmemAll (p1, p2) (by rw [hret]; exact List.mem_cons_self _ _)
        exact this
      subst hp2
      have hall : (((p1, p2) :: tl).all fun q => q.2 = p2) = true := by
        rw [List.all_eq_true]
        intro q hq
        have hq2 : q.2 = p2 := hmemAll q (by rw [hret]; exact hq)
        simp [hq2]
      simp only [mkTicks, hall, if_true]

/-- A successful `getNextTicks` call: the batch carries the minimum
pending datetime, strictly after the previously emitted one; the cursor
state stays well-formed. -/
theorem getNextTicks_ok_some {f : FeedState} {b : TicksBatch} {f' : FeedState}
    (hf : FeedInv f) (h : getNextTicks f = (.ok (some b), f')) :
    peekDateTime f = some b.dateTime ∧
    (∀ c, f.currDateTime = some c → c < b.dateTime) ∧
    f'.currDateTime = some b.dateTime ∧
    FeedInv f' ∧
    b.items = f.series.filterMap (fun s =>
      if s.pending.head? = some b.dateTime then some (s.instrument, b.dateTime)
      else none) := by
  unfold getNextTicks at h
  cases hpeek : peekDateTime f with
  | none => rw [hpeek] at h; cases h
  | some m =>
      rw [hpeek] at h
      dsimp only at h
      by_cases hc : f.currDateTime = some m
      · rw [if_pos hc] at h; cases h
      · rw [if_neg hc] at h
        rw [mkTicks_ret_ok hpeek] at h
        obtain ⟨hb, hf'⟩ := Prod.mk.injEq _ _ _ _ ▸ h
        have hb' := (Except.ok.injEq _ _ ▸ hb)
        have hbb : b = ⟨m, (f.series.map (Series.advance m)).filterMap Prod.fst⟩ :=
          (Option.some.inj hb').symm
        subst hbb
        subst hf'
        obtain ⟨hex, _, _⟩ := peekGo_some f.series none m hpeek
        rcases hex with hex | ⟨s, hs, hsh⟩
        · cases hex
        refine ⟨rfl, ?_, rfl, ?_, ?_⟩
        · intro c hcc
          have hcm : c ≤ m := by
            have hmem : m ∈ s.pending := head?_mem hsh
            exact hf.2 c hcc s hs m hmem
          have hne : c ≠ m := fun hcem => hc (by rw [← hcem]; exact hcc)
          exact lt_of_le_of_ne hcm hne
        · constructor
          · intro s' hs'
            exact (newSeries_bound hf hpeek s' hs').1
          · intro c hcc s' hs' d hd
            cases hcc
            exact (newSeries_bound hf hpeek s' hs').2 d hd
        · show (f.series.map (Series.advance m)).filterMap Prod.fst = _
          rw [List.filterMap_map]
          exact filterMap_congr_mem _ _ _ (fun s _ => advance_fst_eq m s)

/-- A failing `getNextTicks` call: the only raise is the duplicate
datetime check, hit exactly when the minimum pending datetime equals the
previously emitted one, and it happens after the cursors of the whole
offending batch were advanced, with `__currDateTime` left unchanged. -/
theorem getNextTicks_error {f : FeedState} {e : FeedErr} {f' : FeedState}
    (h : getNextTicks f = (.error e, f')) :
    e = .duplicateTicks ∧
    ∃ m, peekDateTime f = some m ∧ f.currDateTime = some m ∧
      f'.currDateTime = f.currDateTime ∧
      f'.series = f.series.map (fun s =>
        if s.pending.head? = some m then { s with nextPos := s.nextPos + 1 }
        else s) ∧
      ∃ s ∈ f.series, s.pending.head? = some m := by
  unfold getNextTicks at h
  cases hpeek : peekDateTime f with
  | none => rw [hpeek] at h; cases h
  | some m =>
      rw [hpeek] at h
      dsimp only at h
      by_cases hc : f.currDateTime = some m
      · rw [if_pos hc] at h
        obtain ⟨he, hf'⟩ := Prod.mk.injEq _ _ _ _ ▸ h
        have he' : e = FeedErr.duplicateTicks := (Except.error.inj he).symm
        obtain ⟨hex, _, _⟩ := peekGo_some f.series none m hpeek
        rcases hex with hex | hex
        · cases hex
        refine ⟨he', m, rfl, hc, ?_, ?_, hex⟩
        · rw [← hf']
        · rw [← hf']
          show (f.series.map (Series.advance m)).map Prod.snd = _
          rw [List.map_map]
          exact List.map_congr_left (fun s _ => advance_snd_eq m s)
      · rw [if_neg hc] at h
        rw [mkTicks_ret_ok hpeek] at h
        cases h

/-- A `getNextTicks` call that returns no batch leaves the state
untouched: it happens exactly when every cursor is exhausted. -/
theorem getNextTicks_ok_none {f : FeedState} {f' : FeedState}
    (h : getNextTicks f = (.ok none, f')) :
    peekDateTime f = none ∧ f' = f := by
  unfold getNextTicks at h
  cases hpeek : peekDateTime f with
  | none =>
      rw [hpeek] at h
      exact ⟨rfl, ((Prod.mk.injEq _ _ _ _ ▸ h).2).symm ▸ rfl⟩
  | some m =>
      rw [hpeek] at h
      dsimp only at h
      by_cases hc : f.currDateTime = some m
      · rw [if_pos hc] at h; cases h
      · rw [if_neg hc] at h
        rw [mkTicks_ret_ok hpeek] at h
        simp at h

/-- An erroring call preserves the feed invariant. -/
theorem getNextTicks_error_inv {f : FeedState} {e : FeedErr} {f' : FeedState}
    (hf : FeedInv f) (h : getNextTicks f = (.error e, f')) : FeedInv f' := by
  obtain ⟨-, m, hpeek, hc, hcurr, hser, -⟩ := getNextTicks_error h
  have hser' : f'.series = (f.series.map (Series.advance m)).map Prod.snd := by
    rw [hser, List.map_map]
    exact (List.map_congr_left (fun s _ => advance_snd_eq m s)).symm
  constructor
  · intro s' hs'
    rw [hser'] at hs'
    exact (newSeries_bound hf hpeek s' hs').1
  · intro c hcc s' hs' d hd
    rw [hser'] at hs'
    have hcm : c = m := by
      rw [hcurr, hc] at hcc
      exact (Option.some.inj hcc).symm
    subst hcm
    exact (newSeries_bound hf hpeek s' hs').2 d hd

/-- Over any number of calls, successful batch datetimes strictly
increase; moreover the first success after state `f` is strictly after
the batch previously emitted from `f`. -/
theorem feedRun_chain :
    ∀ (n : ℕ) (f : FeedState), FeedInv f →
      List.Chain' (· < ·) (feedRun f n) ∧
      (∀ c, f.currDateTime = some c →
        ∀ d, (feedRun f n).head? = some d → c < d) := by
  intro n
  induction n with
  | zero => intro f _; exact ⟨List.chain'_nil, by intro c _ d hd; cases hd⟩
  | succ n ih =>
      intro f hf
      rcases hgt : getNextTicks f with ⟨res, f'⟩
      cases res with
      | ok ob =>
          cases ob with
          | some b =>
              obtain ⟨hpeek, hlt, hcurr', hinv', -⟩ := getNextTicks_ok_some hf hgt
              have hrun : feedRun f (n + 1) = b.dateTime :: feedRun f' n := by
                simp [feedRun, hgt]
              obtain ⟨ihchain, ihhead⟩ := ih f' hinv'
              constructor
              · rw [hrun]
                rw [List.chain'_cons']
                exact ⟨fun y hy => ihhead b.dateTime hcurr' y hy, ihchain⟩
              · intro c hcc d hd
                rw [hrun] at hd
                simp only [List.head?_cons, Option.some.injEq] at hd
                subst hd
                exact hlt c hcc
          | none =>
              obtain ⟨-, hff⟩ := getNextTicks_ok_none hgt
              have hrun : feedRun f (n + 1) = feedRun f' n := by
                simp [feedRun, hgt]
              rw [hrun, hff]
              exact ih f hf
      | error e =>
          obtain ⟨-, m, -, -, hcurr, -, -⟩ := getNextTicks_error hgt
          have hinv' := getNextTicks_error_inv hf hgt
          have hrun : feedRun f (n + 1) = feedRun f' n := by
            simp [feedRun, hgt]
          rw [hrun]
          obtain ⟨ihchain, ihhead⟩ := ih f' hinv'
          refine ⟨ihchain, ?_⟩
          intro c hcc d hd
          exact ihhead c (by rw [hcurr]; exact hcc) d hd

end MemTF

/-- C3: over any sequence of `getNextTicks` calls on a well-formed
in-memory feed, the datetimes of the successfully returned batches are
strictly increasing; a successful call returns exactly the per-instrument
ticks whose current element equals the minimum pending datetime, with a
datetime strictly above the previously emitted one; and when the minimum
pending datetime equals the previously emitted one the call fails with
the duplicate-ticks error instead of returning. -/
theorem getNextTicks_strictly_increasing (f : MemTF.FeedState)
    (hf : MemTF.FeedInv f) :
    (∀ n, List.Chain' (· < ·) (MemTF.feedRun f n)) ∧
    (∀ b f', MemTF.getNextTicks f = (.ok (some b), f') →
      MemTF.peekDateTime f = some b.dateTime ∧
      b.items = f.series.filterMap (fun s =>
        if s.pending.head? = some b.dateTime then
          some (s.instrument, b.dateTime)
        else none) ∧
      (∀ c, f.currDateTime = some c → c < b.dateTime) ∧
      f'.currDateTime = some b.dateTime) ∧
    (∀ m, MemTF.peekDateTime f = some m → f.currDateTime = some m →
      (MemTF.getNextTicks f).1 = .error MemTF.FeedErr.duplicateTicks) := by
  refine ⟨fun n => (MemTF.feedRun_chain n f hf).1, ?_, ?_⟩
  · intro b f' h
    obtain ⟨h1, h2, h3, -, h5⟩ := MemTF.getNextTicks_ok_some hf h
    exact ⟨h1, h5, h2, h3⟩
  · intro m hpeek hc
    unfold MemTF.getNextTicks
    rw [hpeek]
    dsimp only
    rw [if_pos hc]

/-- Witness for C3 on a concrete feed: instrument A with ticks at 1 and 2
and instrument B with a tick at 1; the first two calls return batches at
datetimes 1 and 2, and on a feed whose pending minimum equals the last
emitted datetime the call raises the duplicate error. -/
theorem getNextTicks_strictly_increasing_witness :
    (List.Chain' (· < ·)
      (MemTF.feedRun ⟨[⟨"A", [1, 2], 0⟩, ⟨"B", [1], 0⟩], none⟩ 3)) ∧
    ((MemTF.getNextTicks ⟨[⟨"A", [5, 5], 1⟩], some 5⟩).1 =
      .error MemTF.FeedErr.duplicateTicks) := by
  constructor
  · exact (getNextTicks_strictly_increasing ⟨[⟨"A", [1, 2], 0⟩, ⟨"B", [1], 0⟩], none⟩
      (by
        constructor
        · intro s hs
          simp only [List.mem_cons, List.mem_singleton] at hs
          rcases hs with rfl | hs
          · simp [List.Sorted]
          · rcases hs with rfl | hs
            · simp [List.Sorted]
            · simp at hs
        · intro c hc; cases hc)).1 3
  · exact (getNextTicks_strictly_increasing ⟨[⟨"A", [5, 5], 1⟩], some 5⟩
      (by
        constructor
        · intro s hs
          simp only [List.mem_singleton] at hs
          subst hs
          simp [List.Sorted]
        · intro c hc s hs d hd
          simp only [List.mem_singleton] at hs
          subst hs
          simp only [MemTF.Series.pending, List.drop] at hd
          cases hc
          simp only [List.mem_cons] at hd
          rcases hd with rfl | hd
          · exact le_rfl
          · simp at hd)).2.2 5 rfl rfl

/-- C10: when `getNextTicks` fails with the duplicate-timestamp error,
the feed state has already been mutated: the cursor of every series whose
current tick was in the offending batch has been advanced past that tick
(and at least one series was advanced), while `__currDateTime` is left
unchanged — so the failure is not atomic and the duplicate ticks are
skipped, not re-presented later. -/
theorem getNextTicks_duplicate_not_atomic (f : MemTF.FeedState)
    (e : MemTF.FeedErr) (f' : MemTF.FeedState)
    (h : MemTF.getNextTicks f = (.error e, f')) :
    e = .duplicateTicks ∧
    ∃ m, MemTF.peekDateTime f = some m ∧ f.currDateTime = some m ∧
      f'.currDateTime = f.currDateTime ∧
      f'.series = f.series.map (fun s =>
        if s.pending.head? = some m then { s with nextPos := s.nextPos + 1 }
        else s) ∧
      ∃ s ∈ f.series, s.pending.head? = some m :=
  MemTF.getNextTicks_error h

/-- Witness for C10: a feed whose instrument A holds two ticks at
datetime 5, after the first was emitted.  The failing call advances the
cursor from 1 to 2 and keeps `__currDateTime` at 5. -/
theorem getNextTicks_duplicate_not_atomic_witness :
    (MemTF.getNextTicks ⟨[⟨"A", [5, 5], 1⟩], some 5⟩ =
      (.error .duplicateTicks, ⟨[⟨"A", [5, 5], 2⟩], some 5⟩)) ∧
    (⟨[⟨"A", [5, 5], 2⟩], some 5⟩ : MemTF.FeedState).series =
      ([⟨"A", [5, 5], 1⟩] : List MemTF.Series).map (fun s =>
        if s.pending.head? = some 5 then { s with nextPos := s.nextPos + 1 }
        else s) := by
  have h : MemTF.getNextTicks ⟨[⟨"A", [5, 5], 1⟩], some 5⟩ =
      (.error .duplicateTicks, ⟨[⟨"A", [5, 5], 2⟩], some 5⟩) := by rfl
  obtain ⟨-, m, hm, -, -, hser, -⟩ :=
    getNextTicks_duplicate_not_atomic _ _ _ h
  have hm5 : m = 5 := by
    rw [show MemTF.peekDateTime ⟨[⟨"A", [5, 5], 1⟩], some 5⟩ = some 5 from rfl]
      at hm
    exact (Option.some.inj hm).symm
  subst hm5
  exact ⟨h, hser⟩

/-- `round` of an integer-valued rational is that integer. -/
theorem pyRound_intCast (n : ℤ) : pyRound ((n : ℤ) : ℚ) = n := by
  unfold pyRound
  rw [Int.floor_intCast]
  norm_num

/-- `roundQuantity` of an integer-valued rational is that value. -/
theorem TB.roundQuantity_intCast (n : ℤ) :
    TB.roundQuantity ((n : ℤ) : ℚ) = (n : ℚ) := by
  unfold TB.roundQuantity
  rw [pyRound_intCast]

/-- Case analysis of `__calculateFillSize` and of the zero-size exits of
the fill functions. -/
theorem TB.fillSize_cases (fs : TB.FillState) (o : TB.Order) :
    (fs.volumeLimit = none →
      TB.calculateFillSize fs o = o.getRemaining) ∧
    (∀ lim v, fs.volumeLimit = some lim →
      fs.volumeLeft.lookup o.instrument = some v →
      ((o.allOrNone = false →
        TB.calculateFillSize fs o =
          min (TB.roundQuantity v) o.getRemaining) ∧
      (o.allOrNone = true → o.getRemaining ≤ TB.roundQuantity v →
        TB.calculateFillSize fs o = o.getRemaining) ∧
      (o.allOrNone = true → TB.roundQuantity v < o.getRemaining →
        TB.calculateFillSize fs o = 0))) ∧
    (∀ tick useAdj, TB.calculateFillSize fs o = 0 →
      TB.fillMarketOrder fs o tick = .ok none ∧
      TB.fillLimitOrder fs o useAdj tick = .ok none) := by
  refine ⟨?_, ?_, ?_⟩
  · intro hnone
    unfold TB.calculateFillSize
    rw [hnone]
    by_cases ha : o.allOrNone
    · simp [ha]
    · simp [ha]
  · intro lim v hlim hv
    unfold TB.calculateFillSize
    rw [hlim, hv]
    refine ⟨?_, ?_, ?_⟩
    · intro ha; simp [ha]
    · intro ha hle; simp [ha, hle]
    · intro ha hlt
      simp only [ha, not_true, if_false, Option.getD_some]
      rw [if_neg (not_le.mpr hlt)]
  · intro tick useAdj hzero
    constructor
    · unfold TB.fillMarketOrder
      rw [hzero]
      simp
    · unfold TB.fillLimitOrder
      rw [hzero]
      simp

/-- C4: the computed fill size is the full remaining size when no volume
limit is set; with a volume limit and `volume_left[instrument] = v` the
cap is `round(v)`, a non-all-or-none order fills `min(cap, remaining)`,
an all-or-none order fills `remaining` when `remaining ≤ cap` and `0`
when `remaining > cap`; and a zero size produces no fill. -/
theorem calculateFillSize_spec (fs : TB.FillState) (o : TB.Order) :
    (fs.volumeLimit = none →
      TB.calculateFillSize fs o = o.getRemaining) ∧
    (∀ lim v, fs.volumeLimit = some lim →
      fs.volumeLeft.lookup o.instrument = some v →
      ((o.allOrNone = false →
        TB.calculateFillSize fs o =
          min (TB.roundQuantity v) o.getRemaining) ∧
      (o.allOrNone = true → o.getRemaining ≤ TB.roundQuantity v →
        TB.calculateFillSize fs o = o.getRemaining) ∧
      (o.allOrNone = true → TB.roundQuantity v < o.getRemaining →
        TB.calculateFillSize fs o = 0))) ∧
    (∀ tick useAdj, TB.calculateFillSize fs o = 0 →
      TB.fillMarketOrder fs o tick = .ok none ∧
      TB.fillLimitOrder fs o useAdj tick = .ok none) :=
  TB.fillSize_cases fs o

/-- Witness for C4 on the volume-cap scenario of the spec: with
`volume_left["AAA"] = 20`, an all-or-none order with 80 remaining
computes size 0 and gets no fill, and a non-all-or-none copy computes
`min(round(20), 80) = 20`. -/
theorem calculateFillSize_spec_witness :
    TB.calculateFillSize TB.fsCap TB.orderAoN = 0 ∧
    TB.fillMarketOrder TB.fsCap TB.orderAoN TB.tickAAA = .ok none ∧
    TB.calculateFillSize TB.fsCap TB.orderPlain =
      min (TB.roundQuantity 20) TB.orderPlain.getRemaining := by
  have hz : TB.calculateFillSize TB.fsCap TB.orderAoN = 0 :=
    ((calculateFillSize_spec TB.fsCap TB.orderAoN).2.1 (1/4) 20 rfl rfl).2.2
      rfl (by
        rw [show (20:ℚ) = ((20:ℤ):ℚ) by norm_num, TB.roundQuantity_intCast]
        norm_num [TB.orderAoN, TB.Order.getRemaining])
  refine ⟨hz, ?_, ?_⟩
  · exact ((calculateFillSize_spec TB.fsCap TB.orderAoN).2.2
      TB.tickAAA false hz).1
  · exact ((calculateFillSize_spec TB.fsCap
      TB.orderPlain).2.1 (1/4) 20 rfl rfl).1 rfl

/-- The state produced by `DefaultStrategy.onTicks` on the one-tick batch
is the concrete state above. -/
theorem fsAfterTick11_eq :
    TB.defaultFillState.onTicks ⟨[("AAA", TB.tickBid11)]⟩ =
      TB.fsAfterTick11 := by
  rfl

/-- `roundQuantity 10000 = 10000`. -/
theorem roundQuantity_10000 : TB.roundQuantity 10000 = 10000 := by
  rw [show (10000 : ℚ) = ((10000 : ℤ) : ℚ) by norm_num,
    TB.roundQuantity_intCast]

/-- The fill size of the limit order at that tick is 50. -/
theorem fillSize_limitBuy_50 :
    TB.calculateFillSize TB.fsAfterTick11 TB.orderLimitBuy = 50 := by
  have h := ((TB.fillSize_cases TB.fsAfterTick11 TB.orderLimitBuy).2.1
    (1/4) 10000 rfl rfl).1 rfl
  rw [h, roundQuantity_10000]
  norm_num [TB.orderLimitBuy, TB.Order.getRemaining, min_def]

/-- C5: the claim states that a limit order with positive fill size fills
at the tick's bid (so a GTC limit BUY 50 @ 10 fills at 11 on a first
tick with bid 11).  The trigger helper does return the bid
unconditionally, but `fillLimitOrder` passes it FOUR positional
arguments (`action, limitPrice, broker_.getUseAdjustedValues(), tick`)
while the helper takes three, so on the code the call raises `TypeError`
instead of producing any fill. -/
theorem fillLimitOrder_raises_typeError :
    TB.get_limit_price_trigger TB.Action.buy 10 TB.tickBid11 = some 11 ∧
    TB.calculateFillSize TB.fsAfterTick11 TB.orderLimitBuy = 50 ∧
    TB.fillLimitOrder TB.fsAfterTick11 TB.orderLimitBuy false
        TB.tickBid11 =
      .error (.typeError
        "get_limit_price_trigger takes 3 positional arguments") := by
  refine ⟨rfl, fillSize_limitBuy_50, ?_⟩
  unfold TB.fillLimitOrder
  simp only [fillSize_limitBuy_50]
  norm_num [TB.Order.getLimitPrice, TB.orderLimitBuy,
    TB.call_get_limit_price_trigger]

/-- C6: the claim describes the stop lifecycle — `stop_hit` latched when
the trigger is first present, the first-hit tick filling at the trigger
price (bid 14 tick: no fill; bid 16 tick: fill 10 @ 16).  The trigger
helper does return the bid, but `fillStopOrder` calls
`get_stop_price_trigger` with FOUR positional arguments while the helper
takes three, so on the code processing a not-yet-hit stop order raises
`TypeError` on every tick (at bid 14 as well as at bid 16) before
`setStopHit` can run, and no fill is ever produced. -/
theorem fillStopOrder_raises_typeError :
    TB.get_stop_price_trigger TB.Action.buy 15 TB.tickBid14 = some 14 ∧
    TB.get_stop_price_trigger TB.Action.buy 15 TB.tickBid16 = some 16 ∧
    TB.fillStopOrder TB.fsAfterTick11 TB.orderStopBuy false TB.tickBid14 =
      .error (.typeError
        "get_stop_price_trigger takes 3 positional arguments") ∧
    TB.fillStopOrder TB.fsAfterTick11 TB.orderStopBuy false TB.tickBid16 =
      .error (.typeError
        "get_stop_price_trigger takes 3 positional arguments") := by
  exact ⟨rfl, rfl, rfl, rfl⟩

/-- When the resulting cash would be negative and negative cash is not
allowed, `commitOrderExecution` returns with no state change, no order
change and no event (it only logs). -/
theorem TB.commit_no_cash (cm : TB.Order → ℚ → ℚ → ℚ) (b : TB.Broker)
    (o : TB.Order) (dt : TB.BDateTime) (fi : TB.FillInfo)
    (hq : 0 < fi.price * fi.quantity)
    (hneg : b.cash - TB.signQ o.action * (fi.price * fi.quantity) -
      cm o fi.price fi.quantity < 0)
    (hallow : b.allowNegativeCash = false) :
    TB.commitOrderExecution cm b o dt fi = .ok (b, o, []) := by
  unfold TB.commitOrderExecution
  cases ha : o.action with
  | buy =>
      rw [ha] at hneg
      simp only [TB.signQ, one_mul] at hneg
      dsimp only
      rw [if_pos (by linarith)]
      dsimp only
      rw [if_neg]
      rw [hallow]
      simp only [Bool.false_eq_true, or_false, not_le]
      linarith
  | sell =>
      rw [ha] at hneg
      simp only [TB.signQ, neg_mul, one_mul, sub_neg_eq_add] at hneg
      dsimp only
      rw [if_pos hq]
      dsimp only
      rw [if_neg]
      rw [hallow]
      simp only [Bool.false_eq_true, or_false, not_le]
      linarith

/-- C2: when the resulting cash (cash plus signed cost minus commission)
would be negative and negative cash is not allowed,
`commitOrderExecution` changes nothing: it returns the broker state, the
order (hence its state and filled quantity, so an active order stays
active) unchanged and emits no order event. -/
theorem commitOrderExecution_insufficient_cash (cm : TB.Order → ℚ → ℚ → ℚ)
    (b : TB.Broker) (o : TB.Order) (dt : TB.BDateTime) (fi : TB.FillInfo)
    (hq : 0 < fi.price * fi.quantity)
    (hneg : b.cash - TB.signQ o.action * (fi.price * fi.quantity) -
      cm o fi.price fi.quantity < 0)
    (hallow : b.allowNegativeCash = false) :
    TB.commitOrderExecution cm b o dt fi = .ok (b, o, []) :=
  TB.commit_no_cash cm b o dt fi hq hneg hallow

/-- Witness for C2 on the insufficient-cash scenario of the spec: cash
50, market BUY 10 at price 10 with zero commission — cost 100 exceeds
the cash, so the commit leaves everything unchanged and emits nothing,
and the order is still ACCEPTED. -/
theorem commitOrderExecution_insufficient_cash_witness :
    TB.commitOrderExecution TB.cmZero TB.brokerLowCash TB.orderMktBuy10
      ⟨1, 0⟩ ⟨10, 10⟩ =
      .ok (TB.brokerLowCash, TB.orderMktBuy10, []) ∧
    TB.orderMktBuy10.isActive = true := by
  constructor
  · exact commitOrderExecution_insufficient_cash TB.cmZero TB.brokerLowCash
      TB.orderMktBuy10 ⟨1, 0⟩ ⟨10, 10⟩ (by norm_num)
      (by norm_num [TB.brokerLowCash, TB.orderMktBuy10, TB.signQ, TB.cmZero])
      rfl
  · rfl

/-- `writeBack` never changes the cash. -/
theorem TB.writeBack_cash (b : TB.Broker) (o : TB.Order) :
    (b.writeBack o).cash = b.cash := by
  unfold TB.Broker.writeBack
  cases o.id <;> rfl

/-- `unregisterOrder` never changes the cash. -/
theorem TB.unregisterOrder_cash {b b' : TB.Broker} {o : TB.Order}
    (h : b.unregisterOrder o = .ok b') : b'.cash = b.cash := by
  unfold TB.Broker.unregisterOrder at h
  cases hid : o.id with
  | none => rw [hid] at h; cases h
  | some i =>
      rw [hid] at h
      dsimp only at h
      by_cases hc : (b.activeOrders.lookup i).isSome
      · rw [if_pos hc] at h
        cases h
        rfl
      · rw [if_neg hc] at h; cases h

/-- The two outcomes of a returning `commitOrderExecution`: either the
insufficient-cash branch (everything unchanged, no event), or a
committed execution, whose cash delta is the signed trade value plus the
commission and whose single event carries the execution info. -/
theorem TB.commit_cases (cm : TB.Order → ℚ → ℚ → ℚ) (b : TB.Broker)
    (o : TB.Order) (dt : TB.BDateTime) (fi : TB.FillInfo) (b' : TB.Broker)
    (o' : TB.Order) (evs : List TB.OrderEvent)
    (h : TB.commitOrderExecution cm b o dt fi = .ok (b', o', evs)) :
    (b' = b ∧ o' = o ∧ evs = []) ∨
    (b'.cash = b.cash - (TB.signQ o.action * (fi.price * fi.quantity) +
        cm o fi.price fi.quantity) ∧
      ∃ ev, evs = [ev] ∧
        ev.info = some ⟨fi.price, fi.quantity,
          cm o fi.price fi.quantity, dt⟩) := by
  unfold TB.commitOrderExecution at h
  cases ha : o.action with
  | buy =>
      rw [ha] at h
      dsimp only at h
      split at h
      · exact absurd h (by simp)
      · rename_i cost0 sharesDelta heq
        obtain ⟨rfl, rfl⟩ : cost0 = fi.price * fi.quantity * (-1) ∧
            sharesDelta = fi.quantity := by
          split at heq
          · cases heq; exact ⟨rfl, rfl⟩
          · cases heq
        split at h
        · split at h
          · cases h
          · rename_i o2 hadd
            split at h
            · cases h
            · rename_i shares' hsh
              split at h
              · cases h
              · rename_i fs' hof
                split at h
                · split at h
                  · cases h
                  · rename_i b4 hunreg
                    cases h
                    refine Or.inr ⟨?_, _, rfl, rfl⟩
                    rw [TB.writeBack_cash, TB.unregisterOrder_cash hunreg]
                    show b.cash + (fi.price * fi.quantity * (-1) -
                      cm o fi.price fi.quantity) = _
                    simp only [TB.signQ]
                    ring
                · split at h
                  · cases h
                    refine Or.inr ⟨?_, _, rfl, rfl⟩
                    rw [TB.writeBack_cash]
                    show b.cash + (fi.price * fi.quantity * (-1) -
                      cm o fi.price fi.quantity) = _
                    simp only [TB.signQ]
                    ring
                  · cases h
        · cases h
          exact Or.inl ⟨rfl, rfl, rfl⟩
  | sell =>
      rw [ha] at h
      dsimp only at h
      split at h
      · exact absurd h (by simp)
      · rename_i cost0 sharesDelta heq
        obtain ⟨rfl, rfl⟩ : cost0 = fi.price * fi.quantity ∧
            sharesDelta = -fi.quantity := by
          split at heq
          · cases heq; exact ⟨rfl, rfl⟩
          · cases heq
        split at h
        · split at h
          · cases h
          · rename_i o2 hadd
            split at h
            · cases h
            · rename_i shares' hsh
              split at h
              · cases h
              · rename_i fs' hof
                split at h
                · split at h
                  · cases h
                  · rename_i b4 hunreg
                    cases h
                    refine Or.inr ⟨?_, _, rfl, rfl⟩
                    rw [TB.writeBack_cash, TB.unregisterOrder_cash hunreg]
                    show b.cash + (fi.price * fi.quantity -
                      cm o fi.price fi.quantity) = _
                    simp only [TB.signQ]
                    ring
                · split at h
                  · cases h
                    refine Or.inr ⟨?_, _, rfl, rfl⟩
                    rw [TB.writeBack_cash]
                    show b.cash + (fi.price * fi.quantity -
                      cm o fi.price fi.quantity) = _
                    simp only [TB.signQ]
                    ring
                  · cases h
        · cases h
          exact Or.inl ⟨rfl, rfl, rfl⟩

/-- C1: a committed execution moves cash by exactly the signed trade
value minus the commission (BUY debits `p*q`, SELL credits it, the
commission always debits), and over any sequence of commits the final
cash plus the sum of `sign*price*qty + commission` over the committed
executions equals the initial cash. -/
theorem commit_cash_conservation :
    (∀ (cm : TB.Order → ℚ → ℚ → ℚ) (b : TB.Broker) (o : TB.Order)
        (dt : TB.BDateTime) (fi : TB.FillInfo) (b' : TB.Broker)
        (o' : TB.Order) (evs : List TB.OrderEvent) (ev : TB.OrderEvent),
      TB.commitOrderExecution cm b o dt fi = .ok (b', o', evs) →
      ev ∈ evs →
      b'.cash = b.cash - (TB.signQ o.action * (fi.price * fi.quantity) +
        cm o fi.price fi.quantity)) ∧
    (∀ (cm : TB.Order → ℚ → ℚ → ℚ) (b : TB.Broker)
        (l : List (TB.Order × TB.BDateTime × TB.FillInfo))
        (bf : TB.Broker) (execs : List (TB.Action × TB.ExecInfo)),
      TB.commitMany cm b l = .ok (bf, execs) →
      bf.cash + (execs.map (fun pe =>
        TB.signQ pe.1 * (pe.2.price * pe.2.quantity) +
          pe.2.commission)).sum = b.cash) := by
  constructor
  · intro cm b o dt fi b' o' evs ev h hmem
    rcases TB.commit_cases cm b o dt fi b' o' evs h with
      ⟨-, -, rfl⟩ | ⟨hd, ev0, rfl, -⟩
    · cases hmem
    · exact hd
  · intro cm b l
    induction l generalizing b with
    | nil =>
        intro bf execs h
        unfold TB.commitMany at h
        cases h
        simp
    | cons hd0 rest ih =>
        intro bf execs h
        obtain ⟨o, dt, fi⟩ := hd0
        unfold TB.commitMany at h
        cases hcom : TB.commitOrderExecution cm b o dt fi with
        | error e => rw [hcom] at h; cases h
        | ok trip =>
            obtain ⟨b1, o1, evs⟩ := trip
            rw [hcom] at h
            dsimp only at h
            cases hrest : TB.commitMany cm b1 rest with
            | error e => rw [hrest] at h; cases h
            | ok pr =>
                obtain ⟨bf0, execs0⟩ := pr
                rw [hrest] at h
                dsimp only at h
                cases h
                have hI := ih b1 bf execs0 hrest
                rcases TB.commit_cases cm b o dt fi b1 o1 evs hcom with
                  ⟨rfl, -, rfl⟩ | ⟨hd, ev0, rfl, hinfo⟩
                · simpa using hI
                · have hfm : List.filterMap
                      (fun ev => ev.info.map (fun i => (o.action, i)))
                      [ev0] =
                      [(o.action, (⟨fi.price, fi.quantity,
                        cm o fi.price fi.quantity, dt⟩ : TB.ExecInfo))] := by
                    simp [hinfo]
                  rw [hfm]
                  simp only [List.singleton_append, List.map_cons,
                    List.sum_cons]
                  linarith [hI, hd]

/-- The concrete commit of the C1 witness evaluates as expected. -/
theorem commit_witness_eval :
    TB.commitOrderExecution TB.cmZero TB.brokerRich TB.orderMktBuy100
      ⟨1, 0⟩ ⟨10, 100⟩ =
      .ok (TB.brokerRichAfter, TB.orderMktBuy100Filled,
        [⟨.filledEv, TB.orderMktBuy100Filled, some TB.infoFill100,
          none⟩]) := by
  unfold TB.commitOrderExecution TB.Order.addExecutionInfo
  norm_num [TB.cmZero, TB.brokerRich, TB.orderMktBuy100,
    TB.Order.getRemaining, TB.Broker.getShares, TB.roundQuantity, pyRound,
    TB.setKey, TB.delKey, TB.FillState.onOrderFilled, TB.fsAfterTick11,
    TB.Order.isFilled, TB.Order.isPartiallyFilled, TB.Broker.unregisterOrder,
    TB.Broker.writeBack, TB.brokerRichAfter, TB.orderMktBuy100Filled,
    TB.infoFill100, List.lookup]

/-- Witness for C1 on the spec's first scenario: cash 10000, market BUY
100 at price 10 with no commission commits, and the new cash satisfies
the signed-delta equation (it is `10000 - (1*10*100 + 0) = 9000`). -/
theorem commit_cash_conservation_witness :
    TB.commitOrderExecution TB.cmZero TB.brokerRich TB.orderMktBuy100
      ⟨1, 0⟩ ⟨10, 100⟩ =
      .ok (TB.brokerRichAfter, TB.orderMktBuy100Filled,
        [⟨.filledEv, TB.orderMktBuy100Filled, some TB.infoFill100,
          none⟩]) ∧
    TB.brokerRichAfter.cash = TB.brokerRich.cash -
      (TB.signQ TB.orderMktBuy100.action * ((10 : ℚ) * 100) +
        TB.cmZero TB.orderMktBuy100 10 100) := by
  refine ⟨commit_witness_eval, ?_⟩
  exact commit_cash_conservation.1 TB.cmZero TB.brokerRich TB.orderMktBuy100
    ⟨1, 0⟩ ⟨10, 100⟩ TB.brokerRichAfter TB.orderMktBuy100Filled _ _
    commit_witness_eval (List.mem_singleton_self _)

/-- C8: the pre-process half holds — a non-GTC order processed against a
tick dated after its acceptance date is unregistered and CANCELED with
reason Expired before any fill attempt.  The post-process half is broken
in the code: for a non-GTC order still active after the fill attempt at
its acceptance-date tick, `__postProcessOrder` evaluates
`pyalgotrade.tick.Frequency.DAY`, an attribute module `pyalgotrade.tick`
does not define, so processing raises `AttributeError` instead of
performing the claimed daily-or-greater expiry check, and the engine
never reaches a later tick with the order still active. -/
theorem nonGTC_postprocess_attribute_error :
    TB.preProcessOrder TB.brokerLowCash TB.orderMktBuy10 TB.tickDay2 =
      .ok (false, { TB.brokerLowCash with activeOrders := [] },
        { TB.orderMktBuy10 with state := .canceledSt },
        [⟨.canceledEv, { TB.orderMktBuy10 with state := .canceledSt },
          none, some "Expired"⟩]) ∧
    TB.processOrder TB.cmZero false TB.brokerLowCash TB.orderMktBuy10
      TB.tickDay1 =
      .error (.attributeError
        "module pyalgotrade.tick has no attribute Frequency") := by
  constructor
  · rfl
  · have h1 : TB.Order.processFill TB.brokerLowCash.fill false
        TB.orderMktBuy10 TB.tickDay1 =
        .ok (some ⟨10, 10⟩, TB.orderMktBuy10) := by
      unfold TB.Order.processFill TB.fillMarketOrder
      norm_num [TB.orderMktBuy10, TB.calculateFillSize, TB.brokerLowCash,
        TB.fsAfterTick11, TB.Order.getRemaining, TB.roundQuantity, pyRound,
        TB.tickDay1, TB.Frequency.TRADE, List.lookup, min_def]
    have h2 : TB.commitOrderExecution TB.cmZero
        (TB.brokerLowCash.writeBack TB.orderMktBuy10) TB.orderMktBuy10
        TB.tickDay1.dateTime ⟨10, 10⟩ =
        .ok (TB.brokerLowCash.writeBack TB.orderMktBuy10,
          TB.orderMktBuy10, []) := by
      apply TB.commit_no_cash
      · norm_num
      · rw [TB.writeBack_cash]
        norm_num [TB.brokerLowCash, TB.orderMktBuy10, TB.signQ, TB.cmZero]
      · rfl
    unfold TB.processOrder
    rw [show TB.preProcessOrder TB.brokerLowCash TB.orderMktBuy10
        TB.tickDay1 = .ok (true, TB.brokerLowCash, TB.orderMktBuy10, [])
      from rfl]
    dsimp only
    rw [h1]
    dsimp only
    rw [h2]
    rfl

/-- `writeBack` never changes the next order id. -/
theorem TB.writeBack_nextOrderId (b : TB.Broker) (o : TB.Order) :
    (b.writeBack o).nextOrderId = b.nextOrderId := by
  unfold TB.Broker.writeBack
  cases o.id <;> rfl

/-- `writeBack` never changes the active-order keys... it maps values in
place, so the nextOrderId is untouched; `unregisterOrder` as well. -/
theorem TB.unregisterOrder_nextOrderId {b b' : TB.Broker} {o : TB.Order}
    (h : b.unregisterOrder o = .ok b') : b'.nextOrderId = b.nextOrderId := by
  unfold TB.Broker.unregisterOrder at h
  cases hid : o.id with
  | none => rw [hid] at h; cases h
  | some i =>
      rw [hid] at h
      dsimp only at h
      by_cases hc : (b.activeOrders.lookup i).isSome
      · rw [if_pos hc] at h
        cases h
        rfl
      · rw [if_neg hc] at h; cases h

/-- A returning `commitOrderExecution` keeps the next order id and emits
only FILLED / PARTIALLY_FILLED events. -/
theorem TB.commit_frame (cm : TB.Order → ℚ → ℚ → ℚ) (b : TB.Broker)
    (o : TB.Order) (dt : TB.BDateTime) (fi : TB.FillInfo) (b' : TB.Broker)
    (o' : TB.Order) (evs : List TB.OrderEvent)
    (h : TB.commitOrderExecution cm b o dt fi = .ok (b', o', evs)) :
    b'.nextOrderId = b.nextOrderId ∧
    ∀ ev ∈ evs, ev.eventType = .filledEv ∨
      ev.eventType = .partiallyFilledEv := by
  unfold TB.commitOrderExecution at h
  dsimp only at h
  split at h
  · exact absurd h (by simp)
  · rename_i cost0 sharesDelta heq
    split at h
    · split at h
      · cases h
      · rename_i o2 hadd
        split at h
        · cases h
        · rename_i shares' hsh
          split at h
          · cases h
          · rename_i fs' hof
            split at h
            · split at h
              · cases h
              · rename_i b4 hunreg
                cases h
                refine ⟨?_, ?_⟩
                · rw [TB.writeBack_nextOrderId,
                    TB.unregisterOrder_nextOrderId hunreg]
                · intro ev hev
                  rcases List.mem_singleton.mp hev with rfl
                  exact Or.inl rfl
            · split at h
              · cases h
                refine ⟨?_, ?_⟩
                · rw [TB.writeBack_nextOrderId]
                · intro ev hev
                  rcases List.mem_singleton.mp hev with rfl
                  exact Or.inr rfl
              · cases h
    · cases h
      exact ⟨rfl, by intro ev hev; cases hev⟩

/-- A returning `__preProcessOrder` keeps the next order id and emits
only CANCELED events. -/
theorem TB.preProcess_frame (b : TB.Broker) (o : TB.Order) (tick : TB.BTick)
    (cont : Bool) (b' : TB.Broker) (o' : TB.Order)
    (evs : List TB.OrderEvent)
    (h : TB.preProcessOrder b o tick = .ok (cont, b', o', evs)) :
    b'.nextOrderId = b.nextOrderId ∧
    ∀ ev ∈ evs, ev.eventType = .canceledEv := by
  unfold TB.preProcessOrder at h
  split at h
  · split at h
    · cases h
    · rename_i acc hacc
      split at h
      · split at h
        · cases h
        · rename_i b1 hunreg
          split at h
          · cases h
          · rename_i o1 hsw
            cases h
            refine ⟨?_, ?_⟩
            · rw [TB.writeBack_nextOrderId,
                TB.unregisterOrder_nextOrderId hunreg]
            · intro ev hev
              rcases List.mem_singleton.mp hev with rfl
              rfl
      · cases h
        exact ⟨rfl, by intro ev hev; cases hev⟩
  · cases h
    exact ⟨rfl, by intro ev hev; cases hev⟩

/-- A returning `__postProcessOrder` changed nothing and emitted
nothing (the non-GTC branch always raises). -/
theorem TB.postProcess_frame (b : TB.Broker) (o : TB.Order)
    (tick : TB.BTick) (b' : TB.Broker) (o' : TB.Order)
    (evs : List TB.OrderEvent)
    (h : TB.postProcessOrder b o tick = .ok (b', o', evs)) :
    b' = b ∧ o' = o ∧ evs = [] := by
  unfold TB.postProcessOrder at h
  split at h
  · cases h
  · cases h
    exact ⟨rfl, rfl, rfl⟩

/-- A returning `__processOrder` keeps the next order id and emits no
SUBMITTED event. -/
theorem TB.processOrder_frame (cm : TB.Order → ℚ → ℚ → ℚ) (useAdj : Bool)
    (b : TB.Broker) (o : TB.Order) (tick : TB.BTick) (b' : TB.Broker)
    (o' : TB.Order) (evs : List TB.OrderEvent)
    (h : TB.processOrder cm useAdj b o tick = .ok (b', o', evs)) :
    b'.nextOrderId = b.nextOrderId ∧
    ∀ ev ∈ evs, ev.eventType ≠ .submittedEv := by
  unfold TB.processOrder at h
  cases hpre : TB.preProcessOrder b o tick with
  | error e => rw [hpre] at h; cases h
  | ok quad =>
      obtain ⟨cont, b1, o1, evs1⟩ := quad
      obtain ⟨hpre1, hpre2⟩ := TB.preProcess_frame b o tick cont b1 o1 evs1 hpre
      rw [hpre] at h
      dsimp only at h
      by_cases hcont : cont = true
      · rw [if_neg (by simp [hcont])] at h
        cases hfill : TB.Order.processFill b1.fill useAdj o1 tick with
        | error e => rw [hfill] at h; cases h
        | ok pr =>
            obtain ⟨fi?, o2⟩ := pr
            rw [hfill] at h
            dsimp only at h
            cases hcom : (match fi? with
              | some fi =>
                  TB.commitOrderExecution cm (b1.writeBack o2) o2
                    tick.dateTime fi
              | none => Except.ok (b1.writeBack o2, o2,
                  ([] : List TB.OrderEvent))) with
            | error e => rw [hcom] at h; cases h
            | ok tr =>
                obtain ⟨b2, o3, evs2⟩ := tr
                have hcom2 : b2.nextOrderId = b1.nextOrderId ∧
                    ∀ ev ∈ evs2, ev.eventType ≠ TB.OEventType.submittedEv := by
                  cases hfi : fi? with
                  | some fi =>
                      rw [hfi] at hcom
                      obtain ⟨hn, he⟩ := TB.commit_frame cm (b1.writeBack o2)
                        o2 tick.dateTime fi b2 o3 evs2 hcom
                      refine ⟨by rw [hn, TB.writeBack_nextOrderId], ?_⟩
                      intro ev hev
                      rcases he ev hev with h1 | h1 <;> rw [h1] <;> simp
                  | none =>
                      rw [hfi] at hcom
                      cases hcom
                      exact ⟨TB.writeBack_nextOrderId _ _,
                        by intro ev hev; cases hev⟩
                rw [hcom] at h
                dsimp only at h
                by_cases hact : o3.isActive = true
                · rw [if_pos hact] at h
                  cases hpost : TB.postProcessOrder b2 o3 tick with
                  | error e => rw [hpost] at h; cases h
                  | ok tr2 =>
                      obtain ⟨b3, o4, evs3⟩ := tr2
                      obtain ⟨rfl, -, rfl⟩ :=
                        TB.postProcess_frame b2 o3 tick b3 o4 evs3 hpost
                      rw [hpost] at h
                      dsimp only at h
                      cases h
                      refine ⟨?_, ?_⟩
                      · rw [TB.writeBack_nextOrderId, hcom2.1, hpre1]
                      · intro ev hev
                        simp only [List.append_nil, List.mem_append] at hev
                        rcases hev with hev | hev
                        · rw [hpre2 ev hev]; simp
                        · exact hcom2.2 ev hev
                · rw [if_neg hact] at h
                  cases h
                  refine ⟨by rw [hcom2.1, hpre1], ?_⟩
                  intro ev hev
                  rcases List.mem_append.mp hev with hev | hev
                  · rw [hpre2 ev hev]; simp
                  · exact hcom2.2 ev hev
      · rw [if_pos (by simp [hcont])] at h
        cases h
        refine ⟨hpre1, ?_⟩
        intro ev hev
        rw [hpre2 ev hev]
        simp

/-- A returning `__onTicksImpl` keeps the next order id and emits no
SUBMITTED event (only ACCEPTED plus whatever processing emits). -/
theorem TB.onTicksImpl_frame (cm : TB.Order → ℚ → ℚ → ℚ) (useAdj : Bool)
    (b : TB.Broker) (o : TB.Order) (ticks : TB.BTicks) (b' : TB.Broker)
    (evs : List TB.OrderEvent)
    (h : TB.onTicksImpl cm useAdj b o ticks = .ok (b', evs)) :
    b'.nextOrderId = b.nextOrderId ∧
    ∀ ev ∈ evs, ev.eventType ≠ .submittedEv := by
  unfold TB.onTicksImpl at h
  cases htk : ticks.getTick o.instrument with
  | none =>
      rw [htk] at h
      cases h
      exact ⟨rfl, by intro ev hev; cases hev⟩
  | some tick =>
      rw [htk] at h
      dsimp only at h
      cases hacc : (if o.isSubmitted = true then
          match ({ o with acceptedDateTime := some tick.dateTime } :
              TB.Order).switchState TB.OState.acceptedSt with
          | .error e => Except.error e
          | .ok oa => Except.ok (oa,
              [(⟨.acceptedEv, oa, none, none⟩ : TB.OrderEvent)])
        else Except.ok (o, ([] : List TB.OrderEvent))) with
      | error e => rw [hacc] at h; cases h
      | ok pr =>
          obtain ⟨o1, evs1⟩ := pr
          have hevs1 : ∀ ev ∈ evs1, ev.eventType = TB.OEventType.acceptedEv := by
            split at hacc
            · split at hacc
              · cases hacc
              · cases hacc
                intro ev hev
                rcases List.mem_singleton.mp hev with rfl
                rfl
            · cases hacc
              intro ev hev
              cases hev
          rw [hacc] at h
          dsimp only at h
          by_cases hact : o1.isActive = true
          · rw [if_pos hact] at h
            cases hpo : TB.processOrder cm useAdj (b.writeBack o1) o1 tick with
            | error e => rw [hpo] at h; cases h
            | ok tr =>
                obtain ⟨b2, o2, evs2⟩ := tr
                obtain ⟨hn, he⟩ := TB.processOrder_frame cm useAdj
                  (b.writeBack o1) o1 tick b2 o2 evs2 hpo
                rw [hpo] at h
                dsimp only at h
                cases h
                refine ⟨by rw [hn, TB.writeBack_nextOrderId], ?_⟩
                intro ev hev
                rcases List.mem_append.mp hev with hev | hev
                · rw [hevs1 ev hev]; simp
                · exact he ev hev
          · rw [if_neg hact] at h
            by_cases hcan : o1.isCanceled = true
            · rw [if_pos hcan] at h
              cases h
              refine ⟨TB.writeBack_nextOrderId _ _, ?_⟩
              intro ev hev
              rw [hevs1 ev hev]
              simp
            · rw [if_neg hcan] at h
              cases h

/-- `submitOrder` assigns the next fresh id, increments the counter and
emits one SUBMITTED event carrying that id. -/
theorem TB.submitOrder_facts (b : TB.Broker) (dt? : Option TB.BDateTime)
    (o : TB.Order) (b' : TB.Broker) (o' : TB.Order)
    (evs : List TB.OrderEvent)
    (h : b.submitOrder dt? o = .ok (b', o', evs)) :
    o'.id = some b.nextOrderId ∧ b'.nextOrderId = b.nextOrderId + 1 ∧
    ∀ ev ∈ evs, ev.eventType = .submittedEv ∧
      ev.order.id = some b.nextOrderId := by
  unfold TB.Broker.submitOrder TB.Broker.registerOrder at h
  split at h
  · dsimp only at h
    split at h
    · cases h
    · rename_i b4 hreg
      split at h
      · cases h
      · rename_i o2 hsw
        have hid : o2.id = some b.nextOrderId := by
          unfold TB.Order.switchState at hsw
          split at hsw
          · cases hsw; rfl
          · cases hsw
        have hb4 : b4.nextOrderId = b.nextOrderId + 1 := by
          split at hreg
          · cases hreg
          · cases hreg; rfl
        cases h
        refine ⟨hid, by rw [TB.writeBack_nextOrderId, hb4], ?_⟩
        intro ev hev
        rcases List.mem_singleton.mp hev with rfl
        exact ⟨rfl, hid⟩
  · cases h

/-- `submitList` only moves the id counter up, and every SUBMITTED event
it emits carries an id at or above the starting counter. -/
theorem TB.submitList_facts (dt? : Option TB.BDateTime) :
    ∀ (os : List TB.Order) (b : TB.Broker) (b' : TB.Broker)
      (evs : List TB.OrderEvent),
      TB.submitList dt? b os = .ok (b', evs) →
      b.nextOrderId ≤ b'.nextOrderId ∧
      ∀ ev ∈ evs, ev.eventType = .submittedEv →
        ∃ j, ev.order.id = some j ∧ b.nextOrderId ≤ j := by
  intro os
  induction os with
  | nil =>
      intro b b' evs h
      unfold TB.submitList at h
      cases h
      exact ⟨le_rfl, by intro ev hev; cases hev⟩
  | cons o rest ih =>
      intro b b' evs h
      unfold TB.submitList at h
      cases hsub : b.submitOrder dt? o with
      | error e => rw [hsub] at h; cases h
      | ok tr =>
          obtain ⟨b1, o1, evs1⟩ := tr
          rw [hsub] at h
          dsimp only at h
          cases hrest : TB.submitList dt? b1 rest with
          | error e => rw [hrest] at h; cases h
          | ok pr =>
              obtain ⟨b2, evs2⟩ := pr
              rw [hrest] at h
              dsimp only at h
              cases h
              obtain ⟨-, hn1, hevs1⟩ :=
                TB.submitOrder_facts b dt? o b1 o1 evs1 hsub
              obtain ⟨hn2, hevs2⟩ := ih b1 b' evs2 hrest
              constructor
              · rw [hn1] at hn2
                omega
              · intro ev hev hsubm
                rcases List.mem_append.mp hev with hev | hev
                · obtain ⟨-, hevid⟩ := hevs1 ev hev
                  exact ⟨b.nextOrderId, hevid, le_rfl⟩
                · obtain ⟨j, hj, hle⟩ := hevs2 ev hev hsubm
                  refine ⟨j, hj, ?_⟩
                  rw [hn1] at hle
                  omega

/-- Over the frozen cohort loop, the id counter never decreases and
every SUBMITTED event carries an id at or above the counter at the start
of the step. -/
theorem TB.stepOrders_facts (cm : TB.Order → ℚ → ℚ → ℚ) (useAdj : Bool)
    (dt? : Option TB.BDateTime) (ticks : TB.BTicks) :
    ∀ (cohort : List (ℕ × TB.Order)) (subs : List (List TB.Order))
      (b : TB.Broker) (b' : TB.Broker) (evs : List TB.OrderEvent),
      TB.stepOrders cm useAdj dt? ticks b cohort subs = .ok (b', evs) →
      b.nextOrderId ≤ b'.nextOrderId ∧
      ∀ ev ∈ evs, ev.eventType = .submittedEv →
        ∃ j, ev.order.id = some j ∧ b.nextOrderId ≤ j := by
  intro cohort
  induction cohort with
  | nil =>
      intro subs b b' evs h
      unfold TB.stepOrders at h
      cases h
      exact ⟨le_rfl, by intro ev hev; cases hev⟩
  | cons p cohort ih =>
      intro subs b b' evs h
      obtain ⟨i, o⟩ := p
      unfold TB.stepOrders at h
      cases himpl : TB.onTicksImpl cm useAdj b o ticks with
      | error e => rw [himpl] at h; cases h
      | ok pr1 =>
          obtain ⟨b1, evs1⟩ := pr1
          rw [himpl] at h
          dsimp only at h
          cases hsubm : TB.submitList dt? b1 (subs.headD []) with
          | error e => rw [hsubm] at h; cases h
          | ok pr2 =>
              obtain ⟨b2, evs2⟩ := pr2
              rw [hsubm] at h
              dsimp only at h
              cases hrest : TB.stepOrders cm useAdj dt? ticks b2 cohort
                  subs.tail with
              | error e => rw [hrest] at h; cases h
              | ok pr3 =>
                  obtain ⟨b3, evs3⟩ := pr3
                  rw [hrest] at h
                  dsimp only at h
                  cases h
                  obtain ⟨hn1, hne1⟩ := TB.onTicksImpl_frame cm useAdj b o
                    ticks b1 evs1 himpl
                  obtain ⟨hn2, hevs2⟩ :=
                    TB.submitList_facts dt? (subs.headD []) b1 b2 evs2 hsubm
                  obtain ⟨hn3, hevs3⟩ := ih subs.tail b2 b' evs3 hrest
                  constructor
                  · rw [hn1] at hn2; omega
                  · intro ev hev hsub
                    rcases List.mem_append.mp hev with hev | hev
                    · rcases List.mem_append.mp hev with hev | hev
                      · exact absurd hsub (hne1 ev hev)
                      · obtain ⟨j, hj, hle⟩ := hevs2 ev hev hsub
                        rw [hn1] at hle
                        exact ⟨j, hj, hle⟩
                    · obtain ⟨j, hj, hle⟩ := hevs3 ev hev hsub
                      refine ⟨j, hj, ?_⟩
                      rw [hn1] at hn2
                      omega

/-- C7: every order submitted while a tick step is being processed (from
any callback point inside the step) is absent from the step's processed
cohort: `onTicks` freezes `list(activeOrders.values())` before the loop,
and an order submitted during the step receives a fresh id at or above
the step-start counter, while every cohort entry has an id below it. -/
theorem onTicks_snapshot_excludes_new_submissions
    (cm : TB.Order → ℚ → ℚ → ℚ) (useAdj : Bool)
    (dt? : Option TB.BDateTime) (b : TB.Broker) (ticks : TB.BTicks)
    (subs : List (List TB.Order)) (b' : TB.Broker)
    (evs : List TB.OrderEvent) (hinv : TB.IdInv b)
    (h : TB.Broker.onTicks cm useAdj dt? b ticks subs = .ok (b', evs)) :
    ∀ ev ∈ evs, ev.eventType = .submittedEv →
      ∀ j, ev.order.id = some j → ∀ o, (j, o) ∉ b.activeOrders := by
  intro ev hev hsub j hj o hmem
  unfold TB.Broker.onTicks at h
  obtain ⟨-, hsubis⟩ := TB.stepOrders_facts cm useAdj dt? ticks
    b.activeOrders subs { b with fill := b.fill.onTicks ticks } b' evs h
  obtain ⟨j', hj', hle⟩ := hsubis ev hev hsub
  rw [hj] at hj'
  have hjj : j' = j := (Option.some.inj hj').symm
  subst hjj
  have hle' : b.nextOrderId ≤ j' := hle
  have hlt : j' < b.nextOrderId := hinv (j', o) hmem
  omega

/-- The concrete step of the C7 witness evaluates as expected: the
cohort order fills, then the order submitted mid-step gets id 2. -/
theorem onTicks_witness_eval :
    TB.Broker.onTicks TB.cmZero false (some ⟨1, 0⟩) TB.brokerRich
      TB.batchAAA [[TB.newOrderInit]] =
      .ok (TB.brokerFinal,
        [⟨.filledEv, TB.orderMktBuy100Filled, some TB.infoFill100, none⟩,
          ⟨.submittedEv, TB.newOrderSubmitted, none, none⟩]) := by
  have hfill : TB.Order.processFill TB.brokerRich.fill false
      TB.orderMktBuy100 TB.tickDay1 =
      .ok (some ⟨10, 100⟩, TB.orderMktBuy100) := by
    unfold TB.Order.processFill TB.fillMarketOrder
    norm_num [TB.orderMktBuy100, TB.calculateFillSize, TB.brokerRich,
      TB.fsAfterTick11, TB.Order.getRemaining, TB.roundQuantity, pyRound,
      TB.tickDay1, TB.Frequency.TRADE, List.lookup, min_def]
  have hPO : TB.processOrder TB.cmZero false TB.brokerRich
      TB.orderMktBuy100 TB.tickDay1 =
      .ok (TB.brokerRichAfter, TB.orderMktBuy100Filled,
        [⟨.filledEv, TB.orderMktBuy100Filled, some TB.infoFill100,
          none⟩]) := by
    unfold TB.processOrder
    rw [show TB.preProcessOrder TB.brokerRich TB.orderMktBuy100 TB.tickDay1 =
        .ok (true, TB.brokerRich, TB.orderMktBuy100, []) from rfl]
    dsimp only
    rw [hfill]
    dsimp only
    rw [show TB.brokerRich.writeBack TB.orderMktBuy100 = TB.brokerRich
      from rfl]
    rw [show TB.tickDay1.dateTime = (⟨1, 0⟩ : TB.BDateTime) from rfl]
    rw [commit_witness_eval]
    rfl
  have hImpl : TB.onTicksImpl TB.cmZero false TB.brokerRich
      TB.orderMktBuy100 TB.batchAAA =
      .ok (TB.brokerRichAfter,
        [⟨.filledEv, TB.orderMktBuy100Filled, some TB.infoFill100,
          none⟩]) := by
    unfold TB.onTicksImpl
    rw [show TB.batchAAA.getTick TB.orderMktBuy100.instrument =
        some TB.tickDay1 from rfl]
    dsimp only
    rw [if_neg (show ¬ TB.orderMktBuy100.isSubmitted = true by decide)]
    dsimp only
    rw [if_pos (show TB.orderMktBuy100.isActive = true from rfl)]
    rw [show TB.brokerRich.writeBack TB.orderMktBuy100 = TB.brokerRich
      from rfl]
    rw [hPO]
    rfl
  have hsub : TB.submitList (some ⟨1, 0⟩) TB.brokerRichAfter
      [TB.newOrderInit] =
      .ok (TB.brokerFinal, [⟨.submittedEv, TB.newOrderSubmitted, none,
        none⟩]) := by
    rfl
  unfold TB.Broker.onTicks
  dsimp only
  rw [show ({ TB.brokerRich with
      fill := TB.brokerRich.fill.onTicks TB.batchAAA } : TB.Broker) =
      TB.brokerRich from rfl]
  rw [show TB.brokerRich.activeOrders = [(1, TB.orderMktBuy100)] from rfl]
  unfold TB.stepOrders
  rw [hImpl]
  dsimp only
  rw [show ([[TB.newOrderInit]] : List (List TB.Order)).headD [] =
    [TB.newOrderInit] from rfl]
  rw [hsub]
  dsimp only
  rfl

/-- Witness for C7: in the concrete step above, the order submitted
mid-step received id 2, and no order with id 2 was in the step-start
cohort (the only cohort entry has id 1). -/
theorem onTicks_snapshot_excludes_new_submissions_witness :
    TB.IdInv TB.brokerRich ∧
    (∀ o, ((2 : ℕ), o) ∉ TB.brokerRich.activeOrders) := by
  have hinv : TB.IdInv TB.brokerRich := by
    intro p hp
    simp only [TB.brokerRich] at hp ⊢
    rcases List.mem_singleton.mp hp with rfl
    simp
  refine ⟨hinv, ?_⟩
  intro o
  exact onTicks_snapshot_excludes_new_submissions TB.cmZero false
    (some ⟨1, 0⟩) TB.brokerRich TB.batchAAA [[TB.newOrderInit]]
    TB.brokerFinal _ hinv onTicks_witness_eval
    ⟨.submittedEv, TB.newOrderSubmitted, none, none⟩
    (List.mem_cons_of_mem _ (List.mem_singleton_self _)) rfl 2 rfl o
